import Mathlib

set_option maxHeartbeats 1000000

/-!
Verification development for the gazelle package-aggregation and rule-value
synthesis core (go/tools/gazelle/packages/package.go and the rule value
builder).  Go strings are modelled as `String`, Go slices as `List`, and Go
maps keyed by platform names as association lists built in first-insertion
order (`updateApp` models `m[k] = append(m[k], ...)`); map lookup is `lk`,
with the nil map and the empty map identified.  String scanning primitives
are implemented by structural recursion over `List Char` so that every
definition evaluates inside the kernel.
-/

/-! ## Character-list string primitives -/

/-- Split a character list on a separator character (model of splitting a Go
string on a one-character separator). -/
def splitOnChar (c : Char) : List Char → List (List Char)
  | [] => [[]]
  | x :: xs =>
    match splitOnChar c xs with
    | [] => [[]]
    | g :: gs => if x = c then [] :: g :: gs else (x :: g) :: gs

/-- `hasPre p l` is true iff `p` is a leading segment of `l` (model of Go
strings.HasPrefix on the underlying characters). -/
def hasPre : List Char → List Char → Bool
  | [], _ => true
  | _ :: _, [] => false
  | a :: as, b :: bs => a = b && hasPre as bs

/-- Model of Go strings.HasSuffix on the underlying characters. -/
def hasSuf (p l : List Char) : Bool := hasPre p.reverse l.reverse

/-- Lexicographic order on character lists: the order used by Go's
`sort.Strings`. -/
def lexLe : List Char → List Char → Bool
  | [], _ => true
  | _ :: _, [] => false
  | a :: as, b :: bs => if a = b then lexLe as bs else decide (a < b)

/-- The string order used by `sort.Strings` in `Clean`. -/
def strLe (a b : String) : Prop := lexLe a.data b.data = true

instance : DecidableRel strLe := fun a b => Bool.decEq (lexLe a.data b.data) true

theorem lexLe_total : ∀ a b, lexLe a b = true ∨ lexLe b a = true
  | [], _ => Or.inl rfl
  | _ :: _, [] => Or.inr rfl
  | a :: as, b :: bs => by
    by_cases hab : a = b
    · subst hab
      simp only [lexLe, if_pos rfl]
      exact lexLe_total as bs
    · rcases lt_or_gt_of_ne hab with h | h
      · left
        simp [lexLe, hab, h]
      · right
        simp [lexLe, Ne.symm hab, h, lt_asymm h]

theorem lexLe_trans : ∀ (a b c : List Char),
    lexLe a b = true → lexLe b c = true → lexLe a c = true
  | [], _, _, _, _ => rfl
  | _ :: _, [], _, h, _ => by simp [lexLe] at h
  | _ :: _, _ :: _, [], _, h => by simp [lexLe] at h
  | x :: xs, y :: ys, z :: zs, h1, h2 => by
    by_cases hxy : x = y <;> by_cases hyz : y = z
    · subst hxy; subst hyz
      simp only [lexLe, if_pos rfl] at h1 h2 ⊢
      exact lexLe_trans xs ys zs h1 h2
    · subst hxy
      simp only [lexLe, if_pos rfl] at h1
      simp only [lexLe, if_neg hyz] at h2 ⊢
      exact h2
    · subst hyz
      simp only [lexLe, if_neg hxy] at h1 ⊢
      exact h1
    · simp only [lexLe, if_neg hxy, decide_eq_true_eq] at h1
      simp only [lexLe, if_neg hyz, decide_eq_true_eq] at h2
      have hxz : x < z := lt_trans h1 h2
      simp [lexLe, ne_of_lt hxz, hxz]

theorem lexLe_antisymm : ∀ (a b : List Char),
    lexLe a b = true → lexLe b a = true → a = b
  | [], [], _, _ => rfl
  | [], _ :: _, _, h => by simp [lexLe] at h
  | _ :: _, [], h, _ => by simp [lexLe] at h
  | x :: xs, y :: ys, h1, h2 => by
    by_cases hxy : x = y
    · subst hxy
      simp only [lexLe, if_pos rfl] at h1 h2
      rw [lexLe_antisymm xs ys h1 h2]
    · simp only [lexLe, if_neg hxy, decide_eq_true_eq] at h1
      simp only [lexLe, if_neg (Ne.symm hxy), decide_eq_true_eq] at h2
      exact absurd h2 (lt_asymm h1)

theorem lexLe_refl : ∀ a, lexLe a a = true
  | [] => rfl
  | _ :: as => by
    simp only [lexLe, if_pos rfl]
    exact lexLe_refl as

instance : IsTotal String strLe :=
  ⟨fun a b => by
    rcases lexLe_total a.data b.data with h | h
    · exact Or.inl h
    · exact Or.inr h⟩

instance : IsTrans String strLe :=
  ⟨fun _ _ _ h1 h2 => lexLe_trans _ _ _ h1 h2⟩

instance : IsAntisymm String strLe :=
  ⟨fun _ _ h1 h2 => String.ext (lexLe_antisymm _ _ h1 h2)⟩

instance : IsRefl String strLe := ⟨fun a => lexLe_refl a.data⟩

/-! ## Constraint evaluation (modelled from the spec) -/

def cSpaceCh : Char := ' '
def cCommaCh : Char := ','
def cDotCh : Char := '.'
def cBangCh : Char := '!'
def bangbang : List Char := ['!', '!']
def goChars : List Char := ['g', 'o']

def isDigits (l : List Char) : Bool := !l.isEmpty && l.all Char.isDigit

/-- Modelled from the spec: the reserved "minimum-version" tag pattern
(release tags such as go1.7) that always evaluates true; the defining code
(fileinfo.go) is not under src, so the pattern is fixed by §4.1 of the spec
and the TestCheckTags rows for go1.7..go2.0. -/
def isReleaseTag (t : List Char) : Bool :=
  match splitOnChar cDotCh t with
  | [a, b] => hasPre goChars a && isDigits (a.drop 2) && isDigits b
  | _ => false

/-- Modelled from the spec: one AND-factor of a build-tag line: optional
leading negation, reserved minimum-version factors always true, otherwise
membership (or confirmed absence) in the satisfied set. -/
def checkFactor (sat : List String) (f : List Char) : Bool :=
  let neg := hasPre [cBangCh] f
  let core := if neg then f.drop 1 else f
  if isReleaseTag core then true
  else if neg then !(sat.any (fun t => t.data == core))
  else sat.any (fun t => t.data == core)

/-- The space-separated OR-terms of a line (empty terms dropped). -/
def goFields (line : String) : List (List Char) :=
  (splitOnChar cSpaceCh line.data).filter (fun g => !g.isEmpty)

/-- Modelled from the spec: `checkTags(line, satisfied)` — a line is
space-separated OR-terms of comma-separated AND-factors; any factor with two
leading negations vetoes the whole line; an empty line is false.  The
defining code (fileinfo.go) is not under src; behavior fixed by §4.1 and
TestCheckTags. -/
def checkTags (line : String) (sat : List String) : Bool :=
  let groups := goFields line
  if groups.any (fun g => (splitOnChar cCommaCh g).any (fun f => hasPre bangbang f)) then false
  else groups.any (fun g => (splitOnChar cCommaCh g).all (checkFactor sat))

/-! ## File records -/

inductive FileCategory where
  | goExt | sExt | hExt | cExt | csExt | protoExt | ignoredExt | unsupportedExt
deriving DecidableEq

/-- A compiler or linker flag together with its optional build-tag
expression (taggedOpts in fileinfo.go). -/
structure TaggedOpts where
  tags : String
  opts : String
deriving DecidableEq

/-- The per-file record produced by the file-info scanners (fileinfo.go);
only the fields read by the aggregation code under verification are
modelled. -/
structure FileInfo where
  name : String
  path : String
  category : FileCategory
  isTest : Bool
  isXTest : Bool
  isCgo : Bool
  imports : List String
  copts : List TaggedOpts
  clinkopts : List TaggedOpts
  goos : String
  goarch : String
  tags : List String
deriving DecidableEq

/-- Modelled from the spec: `checkConstraints` — true iff goos is absent or
satisfied, goarch is absent or satisfied, and every tag line evaluates true.
The defining code (fileinfo.go) is not under src; behavior fixed by §4.1 and
TestCheckConstraints. -/
def FileInfo.checkConstraints (fi : FileInfo) (sat : List String) : Bool :=
  (fi.goos == "" || sat.contains fi.goos) &&
  (fi.goarch == "" || sat.contains fi.goarch) &&
  fi.tags.all (fun line => checkTags line sat)

/-- Modelled from the spec: a file "carries a platform constraint" iff it has
a goos or goarch filename suffix or at least one build-tag line.  The
defining code (fileinfo.go hasConstraints) is not under src. -/
def FileInfo.hasConstraints (fi : FileInfo) : Bool :=
  !(fi.goos == "") || !(fi.goarch == "") || !fi.tags.isEmpty

/-- The read-only configuration: generic build tags and the platform table
mapping platform names to satisfied-tag sets (config.Config / PlatformTags,
not under src; shape fixed by §3 of the spec). -/
structure Config where
  genericTags : List String
  platforms : List (String × List String)
deriving DecidableEq

/-! ## PlatformStrings and its operations (package.go) -/

structure PlatformStrings where
  Generic : List String
  Platform : List (String × List String)
deriving DecidableEq

/-- `updateApp m k ss` models the Go statement
`m[k] = append(m[k], ss...)` (creating the map / the key as needed). -/
def updateApp : List (String × List String) → String → List String → List (String × List String)
  | [], k, ss => [(k, ss)]
  | e :: m, k, ss => if e.1 = k then (e.1, e.2 ++ ss) :: m else e :: updateApp m k ss

/-- Map lookup: `lk m k` models reading `m[k]` (absent key gives nil). -/
def lk : List (String × List String) → String → List String
  | [], _ => []
  | e :: m, k => if e.1 = k then e.2 else lk m k

def PlatformStrings.addGenericStrings (ps : PlatformStrings) (ss : List String) : PlatformStrings :=
  { ps with Generic := ps.Generic ++ ss }

def PlatformStrings.addPlatformStrings (ps : PlatformStrings) (name : String) (ss : List String) : PlatformStrings :=
  { ps with Platform := updateApp ps.Platform name ss }

def PlatformStrings.addGenericOpts (ps : PlatformStrings) (platforms : List (String × List String)) (opts : List TaggedOpts) : PlatformStrings :=
  opts.foldl (fun ps t =>
    if t.tags == "" then { ps with Generic := ps.Generic ++ [t.opts] }
    else platforms.foldl (fun ps e =>
      if checkTags t.tags e.2 then { ps with Platform := updateApp ps.Platform e.1 [t.opts] } else ps) ps) ps

def PlatformStrings.addTaggedOpts (ps : PlatformStrings) (name : String) (opts : List TaggedOpts) (tags : List String) : PlatformStrings :=
  opts.foldl (fun ps t =>
    if t.tags == "" || checkTags t.tags tags then { ps with Platform := updateApp ps.Platform name [t.opts] } else ps) ps

/-! ## Targets and Packages (package.go) -/

structure Target where
  Sources : PlatformStrings
  Imports : PlatformStrings
  COpts : PlatformStrings
  CLinkOpts : PlatformStrings
deriving DecidableEq

def Target.addFile (c : Config) (t : Target) (info : FileInfo) : Target :=
  if !info.hasConstraints || info.checkConstraints c.genericTags then
    { Sources := t.Sources.addGenericStrings [info.name]
      Imports := t.Imports.addGenericStrings info.imports
      COpts := t.COpts.addGenericOpts c.platforms info.copts
      CLinkOpts := t.CLinkOpts.addGenericOpts c.platforms info.clinkopts }
  else
    c.platforms.foldl (fun t e =>
      if info.checkConstraints e.2 then
        { Sources := t.Sources.addPlatformStrings e.1 [info.name]
          Imports := t.Imports.addPlatformStrings e.1 info.imports
          COpts := t.COpts.addTaggedOpts e.1 info.copts e.2
          CLinkOpts := t.CLinkOpts.addTaggedOpts e.1 info.clinkopts e.2 }
      else t) t

structure Package where
  Name : String
  Dir : String
  Rel : String
  Library : Target
  CgoLibrary : Target
  Binary : Target
  Test : Target
  XTest : Target
  Protos : List String
  HasPbGo : Bool
  HasTestdata : Bool
deriving DecidableEq

def cgoTestMsg : String := ": use of cgo in test not supported"

def pbGoSuffix : List Char := ".pb.go".data

/-- The trailing `strings.HasSuffix(info.name, ".pb.go")` flag update of
Package.addFile. -/
def setPbGo (info : FileInfo) (p : Package) : Package :=
  if hasSuf pbGoSuffix info.name.data then { p with HasPbGo := true } else p

def isCFamily (cat : FileCategory) : Bool :=
  cat == .cExt || cat == .hExt || cat == .csExt

/-- Model of Package.addFile.  The Go method mutates `p` and returns an
error; the model returns the updated package together with the optional
error, with the package unchanged exactly when the Go method returned before
mutating. -/
def Package.addFile (c : Config) (p : Package) (info : FileInfo) (cgo : Bool) : Package × Option String :=
  if info.category == .ignoredExt || info.category == .unsupportedExt then (p, none)
  else if info.isXTest then
    if info.isCgo then (p, some (info.path ++ cgoTestMsg))
    else (setPbGo info { p with XTest := p.XTest.addFile c info }, none)
  else if info.isTest then
    if info.isCgo then (p, some (info.path ++ cgoTestMsg))
    else (setPbGo info { p with Test := p.Test.addFile c info }, none)
  else if info.isCgo || (cgo && isCFamily info.category) then
    (setPbGo info { p with CgoLibrary := p.CgoLibrary.addFile c info }, none)
  else if info.category == .goExt || info.category == .sExt || info.category == .hExt then
    (setPbGo info { p with Library := p.Library.addFile c info }, none)
  else if info.category == .protoExt then
    (setPbGo info { p with Protos := p.Protos ++ [info.name] }, none)
  else (setPbGo info p, none)

/-! ## Clean (package.go) -/

/-- The adjacent-duplicate sweep of `uniq` after the first kept element. -/
def uniqAux (prev : String) : List String → List String
  | [] => []
  | x :: xs => if x = prev then uniqAux prev xs else x :: uniqAux x xs

/-- Model of the Go `uniq`: drop adjacent duplicates, keeping the first of
each run. -/
def uniq : List String → List String
  | [] => []
  | x :: xs => x :: uniqAux x xs

/-- Model of `sort.Strings`. -/
def sortStrings (l : List String) : List String := List.insertionSort strLe l

/-- The sort-then-uniq pass applied by Clean to each list. -/
def cleanStrings (l : List String) : List String := uniq (sortStrings l)

/-- One iteration of the Clean loop over the platform map: remove anything
already in the (cleaned) generic list, drop the entry if it became empty,
otherwise sort and de-duplicate it. -/
def cleanEntry (generic : List String) (e : String × List String) : Option (String × List String) :=
  let ss := e.2.filter (fun s => !(generic.contains s))
  if ss.isEmpty then none else some (e.1, cleanStrings ss)

/-- Model of PlatformStrings.Clean: sort and de-duplicate the generic list,
remove from every per-platform list anything in the generic list, sort and
de-duplicate what is left, drop entries that became empty (an empty map and
a nil map are identified). -/
def PlatformStrings.Clean (ps : PlatformStrings) : PlatformStrings :=
  { Generic := cleanStrings ps.Generic
    Platform := ps.Platform.filterMap (cleanEntry (cleanStrings ps.Generic)) }

/-! ## Map (package.go) -/

/-- One step of the Map loops: apply the transform to one string, appending
the result to the output list or the error to the error list. -/
def mapOne (f : String → Except String String) (acc : List String × List String) (s : String) : List String × List String :=
  match f s with
  | .error e => (acc.1, acc.2 ++ [e])
  | .ok r => (acc.1 ++ [r], acc.2)

/-- Model of PlatformStrings.Map: transform every string in the generic list
and in every per-platform list, collecting all per-item errors. -/
def PlatformStrings.Map (ps : PlatformStrings) (f : String → Except String String) : PlatformStrings × List String :=
  let g := ps.Generic.foldl (mapOne f) ([], [])
  let pl := ps.Platform.foldl (fun acc e =>
      let inner := e.2.foldl (mapOne f) ([], acc.2)
      (acc.1 ++ [(e.1, inner.1)], inner.2))
    (([] : List (String × List String)), g.2)
  ({ Generic := g.1, Platform := pl.1 }, pl.2)

/-! ## Aggregation of whole directories -/

def emptyPlatformStrings : PlatformStrings := { Generic := [], Platform := [] }

def emptyTarget : Target :=
  { Sources := emptyPlatformStrings, Imports := emptyPlatformStrings
    COpts := emptyPlatformStrings, CLinkOpts := emptyPlatformStrings }

def emptyPackage : Package :=
  { Name := "", Dir := "", Rel := ""
    Library := emptyTarget, CgoLibrary := emptyTarget, Binary := emptyTarget
    Test := emptyTarget, XTest := emptyTarget
    Protos := [], HasPbGo := false, HasTestdata := false }

/-- Fold a list of file records into a package with Package.addFile,
continuing past per-file errors (the caller reports them and keeps going). -/
def addFiles (c : Config) (cgo : Bool) (p : Package) (files : List FileInfo) : Package :=
  files.foldl (fun p info => (Package.addFile c p info cgo).1) p

def Target.clean (t : Target) : Target :=
  { Sources := t.Sources.Clean, Imports := t.Imports.Clean
    COpts := t.COpts.Clean, CLinkOpts := t.CLinkOpts.Clean }

/-- Normalization of every PlatformStrings of a package, as required before
synthesis. -/
def Package.clean (p : Package) : Package :=
  { p with Library := p.Library.clean, CgoLibrary := p.CgoLibrary.clean
           Binary := p.Binary.clean, Test := p.Test.clean, XTest := p.XTest.clean }

/-! ## Expression synthesis (the rule value builder) -/

/-- The build-expression tree shape (the bf.Expr constructors used by the
value builder: literal, string, list, key-value, dict, call, binary). -/
inductive Expr where
  | lit (token : String)
  | str (value : String)
  | list (elems : List Expr) (forceMultiLine : Bool)
  | keyValue (key value : Expr)
  | dict (elems : List Expr) (forceMultiLine : Bool)
  | call (x : Expr) (args : List Expr)
  | binary (x : Expr) (op : String) (y : Expr)

/-- The runtime shapes dispatched on by newValue (reflect.Kind plus the two
struct cases), as a sum type. -/
inductive Value where
  | int (n : Int)
  | str (s : String)
  | list (l : List Value)
  | glob (patterns excludes : List String)
  | platformStrings (ps : PlatformStrings)
  | mapping (m : List (String × Value))

/-- Order on map entries by key, as used to sort reflect.MapKeys (byString). -/
def keyLe {α : Type} (a b : String × α) : Prop := strLe a.1 b.1

instance {α : Type} : DecidableRel (@keyLe α) :=
  fun a b => Bool.decEq (lexLe a.1.data b.1.data) true

instance {α : Type} : IsTotal (String × α) keyLe :=
  ⟨fun a b => total_of strLe a.1 b.1⟩

instance {α : Type} : IsTrans (String × α) keyLe :=
  ⟨fun _ _ _ h1 h2 => lexLe_trans _ _ _ h1 h2⟩

/-- Sorting the entries of a mapping by key (model of
`sort.Sort(byString(rkeys))` followed by reading the values back). -/
def sortEntries {α : Type} (l : List (String × α)) : List (String × α) :=
  List.insertionSort keyLe l

theorem mem_sortEntries {α : Type} {a : String × α} {l : List (String × α)} :
    a ∈ sortEntries l ↔ a ∈ l :=
  (List.perm_insertionSort keyLe l).mem_iff

def sSelect : String := "select"
def sGlobName : String := "glob"
def sExcludes : String := "excludes"
def sDefault : String := "//conditions:default"
def sPlus : String := "+"

/-- The in-place ForceMultiLine update applied to list expressions
(`if l, ok := v.(*bf.ListExpr); ok { l.ForceMultiLine = true }`). -/
def forceML : Expr → Expr
  | .list l _ => .list l true
  | e => e

/-- The mapping case of newValue specialized to a map whose values are
string lists (the shape of PlatformStrings.Platform): keys sorted, every
value converted to a string-list expression forced multi-line, a trailing
default case appended.  This is the closed form the uniform recursion takes
at that shape; `newValue_platform_mapping` below proves the two agree. -/
def selectOfPlatform (pl : List (String × List String)) : Expr :=
  let es := sortEntries pl
  .call (.lit sSelect)
    [.dict ((es.map (fun e => Expr.keyValue (Expr.str e.1) (Expr.list (e.2.map Expr.str) true))) ++
      [Expr.keyValue (Expr.str sDefault) (Expr.list [] false)]) true]

/-- Model of newValue: convert a runtime value into a build expression.
The integer/float, string, slice, glob, PlatformStrings and map cases of the
Go switch, in order; the panic case is unreachable over the `Value` sum
type, which covers exactly the accepted shapes. -/
def newValue : Value → Expr
  | .int n => .lit (toString n)
  | .str s => .str s
  | .list l => .list (l.attach.map (fun x => newValue x.1)) false
  | .glob pats excludes =>
    let patternsValue := Expr.list (pats.map Expr.str) false
    let globArgs := if excludes.length > 0 then
        [patternsValue, Expr.keyValue (Expr.str sExcludes) (Expr.list (excludes.map Expr.str) false)]
      else [patternsValue]
    .call (.lit sGlobName) globArgs
  | .platformStrings ps =>
    let gen := Expr.list (ps.Generic.map Expr.str) false
    if ps.Platform.length = 0 then gen
    else
      let sel := selectOfPlatform ps.Platform
      if ps.Generic.length = 0 then sel
      else .binary (forceML gen) sPlus sel
  | .mapping m =>
    let args := (sortEntries m).attach.map
      (fun x => Expr.keyValue (Expr.str x.1.1) (forceML (newValue x.1.2)))
    .call (.lit sSelect)
      [.dict (args ++ [Expr.keyValue (Expr.str sDefault) (Expr.list [] false)]) true]
termination_by v => sizeOf v
decreasing_by
  · have h := List.sizeOf_lt_of_mem x.2
    simp only [Value.list.sizeOf_spec]
    omega
  · obtain ⟨⟨a, b⟩, hx⟩ := x
    have h1 : sizeOf (a, b) < sizeOf m := List.sizeOf_lt_of_mem (mem_sortEntries.mp hx)
    have h2 : sizeOf ((a, b) : String × Value) = 1 + sizeOf a + sizeOf b := rfl
    simp only [Value.mapping.sizeOf_spec]
    simp only [h2] at h1
    omega

/-! ## Unfolding lemmas for newValue -/

theorem newValue_int (n : Int) : newValue (.int n) = .lit (toString n) := by
  simp [newValue]

theorem newValue_str (s : String) : newValue (.str s) = .str s := by
  simp [newValue]

theorem newValue_list (l : List Value) :
    newValue (.list l) = .list (l.map newValue) false := by
  simp only [newValue]
  congr 1
  exact List.attach_map_val l newValue

theorem newValue_mapping (m : List (String × Value)) :
    newValue (.mapping m) = .call (.lit sSelect)
      [.dict (((sortEntries m).map
          (fun e => Expr.keyValue (Expr.str e.1) (forceML (newValue e.2)))) ++
        [Expr.keyValue (Expr.str sDefault) (Expr.list [] false)]) true] := by
  simp only [newValue]
  rw [List.attach_map_val (sortEntries m)
    (fun e => Expr.keyValue (Expr.str e.1) (forceML (newValue e.2)))]

/-- The entry shape a PlatformStrings.Platform value takes when handed to
the mapping case of newValue. -/
def toEntry (e : String × List String) : String × Value :=
  (e.1, Value.list (e.2.map Value.str))

theorem orderedInsert_map_toEntry (a : String × List String) :
    ∀ l : List (String × List String),
      List.orderedInsert keyLe (toEntry a) (l.map toEntry) =
        (List.orderedInsert keyLe a l).map toEntry
  | [] => rfl
  | b :: t => by
    simp only [List.map_cons, List.orderedInsert]
    by_cases h : keyLe a b
    · rw [if_pos h, if_pos (show keyLe (toEntry a) (toEntry b) from h)]
      simp
    · rw [if_neg h, if_neg (show ¬ keyLe (toEntry a) (toEntry b) from h)]
      rw [List.map_cons, orderedInsert_map_toEntry a t]

theorem sortEntries_map_toEntry :
    ∀ pl : List (String × List String),
      sortEntries (pl.map toEntry) = (sortEntries pl).map toEntry
  | [] => rfl
  | a :: t => by
    simp only [List.map_cons, sortEntries, List.insertionSort]
    rw [show List.insertionSort keyLe (t.map toEntry) = sortEntries (t.map toEntry) from rfl,
      sortEntries_map_toEntry t]
    exact orderedInsert_map_toEntry a (sortEntries t)

/-- The recursion of newValue on the Platform mapping agrees with the
specialized closed form used in the PlatformStrings branch. -/
theorem newValue_platform_mapping (pl : List (String × List String)) :
    newValue (.mapping (pl.map toEntry)) = selectOfPlatform pl := by
  rw [newValue_mapping, sortEntries_map_toEntry]
  simp only [selectOfPlatform, List.map_map]
  have hfun : ((fun e => Expr.keyValue (Expr.str e.1) (forceML (newValue e.2))) ∘ toEntry) =
      (fun e : String × List String =>
        Expr.keyValue (Expr.str e.1) (Expr.list (e.2.map Expr.str) true)) := by
    funext e
    simp [Function.comp, toEntry, newValue_list, List.map_map, newValue_str, forceML]
  rw [hfun]

/-! ## Uniqueness of the sorted arrangement of a mapping -/

theorem sorted_perm_nodupKeys_eq {α : Type} :
    ∀ {l₁ l₂ : List (String × α)}, l₁.Perm l₂ →
      l₁.Sorted keyLe → l₂.Sorted keyLe → (l₁.map Prod.fst).Nodup → l₁ = l₂
  | [], _, h, _, _, _ => h.nil_eq
  | _ :: _, [], h, _, _, _ => absurd h.symm.nil_eq (by simp)
  | a :: t₁, b :: t₂, h, hs₁, hs₂, hn => by
    have hab : a = b := by
      have hamem : a ∈ b :: t₂ := h.subset (List.mem_cons_self a t₁)
      have hbmem : b ∈ a :: t₁ := h.symm.subset (List.mem_cons_self b t₂)
      have hba : strLe b.1 a.1 := by
        rcases List.mem_cons.mp hamem with heq | hmem
        · rw [heq]
          exact lexLe_refl b.1.data
        · exact List.rel_of_sorted_cons hs₂ a hmem
      have hab2 : strLe a.1 b.1 := by
        rcases List.mem_cons.mp hbmem with heq | hmem
        · rw [heq]
          exact lexLe_refl a.1.data
        · exact List.rel_of_sorted_cons hs₁ b hmem
      have hkeys : a.1 = b.1 := String.ext (lexLe_antisymm _ _ hab2 hba)
      rcases List.mem_cons.mp hbmem with heq | hmem
      · exact heq.symm
      · exfalso
        have : a.1 ∈ t₁.map Prod.fst := hkeys ▸ List.mem_map_of_mem Prod.fst hmem
        simp only [List.map_cons, List.nodup_cons] at hn
        exact hn.1 this
    subst hab
    have htail : t₁.Perm t₂ := h.cons_inv
    have := sorted_perm_nodupKeys_eq htail hs₁.of_cons hs₂.of_cons
      (by simp only [List.map_cons, List.nodup_cons] at hn; exact hn.2)
    rw [this]

/-! ## Concrete strings used by witnesses and counterexamples -/

def keyA : String := "a"
def keyB : String := "b"
def strX : String := "x"
def pLinux : String := "linux"
def pDarwin : String := "darwin"
def tagFoo : String := "foo"
def tagBar : String := "bar"

/-! ## C3 and C5 -/

/-- C3: newValue on a mapping builds a select call whose dictionary lists
the mapping's entries in ascending key order (so any two mappings equal as
maps give the identical tree), each key a quoted string, each value
recursively converted with list values forced multi-line, followed by
exactly one synthetic trailing default-case entry mapping to an empty
list. -/
theorem c3_mapping_sorted_select (m es : List (String × Value))
    (hnodup : (m.map Prod.fst).Nodup) (hperm : es.Perm m) (hsorted : es.Sorted keyLe) :
    newValue (.mapping m) = .call (.lit sSelect)
      [.dict ((es.map (fun e => Expr.keyValue (Expr.str e.1) (forceML (newValue e.2)))) ++
        [Expr.keyValue (Expr.str sDefault) (Expr.list [] false)]) true] := by
  rw [newValue_mapping]
  have hperm2 : (sortEntries m).Perm es := (List.perm_insertionSort keyLe m).trans hperm.symm
  have hsorted1 : (sortEntries m).Sorted keyLe := List.sorted_insertionSort keyLe m
  have hnodup1 : ((sortEntries m).map Prod.fst).Nodup :=
    (((List.perm_insertionSort keyLe m).map Prod.fst).nodup_iff).mpr hnodup
  rw [sorted_perm_nodupKeys_eq hperm2 hsorted1 hsorted hnodup1]

theorem c3_witness :
    (([(keyB, Value.int 1), (keyA, Value.int 2)].map Prod.fst).Nodup) ∧
    ([(keyA, Value.int 2), (keyB, Value.int 1)].Perm [(keyB, Value.int 1), (keyA, Value.int 2)]) ∧
    ([(keyA, Value.int 2), (keyB, Value.int 1)].Sorted keyLe) ∧
    newValue (.mapping [(keyB, Value.int 1), (keyA, Value.int 2)]) = .call (.lit sSelect)
      [.dict ((([(keyA, Value.int 2), (keyB, Value.int 1)]).map
          (fun e => Expr.keyValue (Expr.str e.1) (forceML (newValue e.2)))) ++
        [Expr.keyValue (Expr.str sDefault) (Expr.list [] false)]) true] :=
  ⟨by decide, List.Perm.swap _ _ _, by decide,
   c3_mapping_sorted_select _ _ (by decide) (List.Perm.swap _ _ _) (by decide)⟩

/-- C5: newValue on a PlatformStrings value emits only the generic list when
the per-platform mapping is empty; only the conditional (select) form when
the generic list is empty and the mapping is not; and otherwise the binary
"+" of the generic list (forced multi-line) with the conditional form. -/
theorem c5_platform_strings_value (ps : PlatformStrings) :
    (ps.Platform = [] →
      newValue (.platformStrings ps) = Expr.list (ps.Generic.map Expr.str) false) ∧
    (ps.Platform ≠ [] → ps.Generic = [] →
      newValue (.platformStrings ps) = newValue (.mapping (ps.Platform.map toEntry))) ∧
    (ps.Platform ≠ [] → ps.Generic ≠ [] →
      newValue (.platformStrings ps) =
        Expr.binary (Expr.list (ps.Generic.map Expr.str) true) sPlus
          (newValue (.mapping (ps.Platform.map toEntry)))) := by
  refine ⟨?_, ?_, ?_⟩
  · intro hp
    simp only [newValue]
    rw [if_pos (by simp [hp])]
  · intro hp hg
    rw [newValue_platform_mapping]
    simp only [newValue]
    rw [if_neg (by simpa [List.length_eq_zero] using hp), if_pos (by simp [hg])]
  · intro hp hg
    rw [newValue_platform_mapping]
    simp only [newValue]
    rw [if_neg (by simpa [List.length_eq_zero] using hp),
      if_neg (by simpa [List.length_eq_zero] using hg)]
    rfl

theorem c5_witness :
    (({ Generic := [strX], Platform := [(pLinux, [keyA])] } : PlatformStrings).Platform ≠ []) ∧
    (({ Generic := [strX], Platform := [(pLinux, [keyA])] } : PlatformStrings).Generic ≠ []) ∧
    newValue (.platformStrings { Generic := [strX], Platform := [(pLinux, [keyA])] }) =
      Expr.binary (Expr.list ([strX].map Expr.str) true) sPlus
        (newValue (.mapping ([(pLinux, [keyA])].map toEntry))) :=
  ⟨by decide, by decide,
   (c5_platform_strings_value { Generic := [strX], Platform := [(pLinux, [keyA])] }).2.2
     (by decide) (by decide)⟩

/-! ## Properties of uniq, sortStrings and cleanStrings -/

theorem mem_of_mem_uniqAux {a prev : String} :
    ∀ {l : List String}, a ∈ uniqAux prev l → a ∈ l
  | [], h => by simp [uniqAux] at h
  | x :: xs, h => by
    by_cases hx : x = prev
    · simp only [uniqAux, if_pos hx] at h
      exact List.mem_cons_of_mem x (mem_of_mem_uniqAux h)
    · simp only [uniqAux, if_neg hx] at h
      rcases List.mem_cons.mp h with heq | hmem
      · exact heq ▸ List.mem_cons_self x xs
      · exact List.mem_cons_of_mem x (mem_of_mem_uniqAux hmem)

theorem mem_uniqAux_of_mem {a prev : String} :
    ∀ {l : List String}, a ∈ l → a = prev ∨ a ∈ uniqAux prev l
  | [], h => by simp at h
  | x :: xs, h => by
    by_cases hx : x = prev
    · simp only [uniqAux, if_pos hx]
      rcases List.mem_cons.mp h with heq | hmem
      · exact Or.inl (heq.trans hx)
      · exact mem_uniqAux_of_mem hmem
    · simp only [uniqAux, if_neg hx]
      rcases List.mem_cons.mp h with heq | hmem
      · exact Or.inr (heq ▸ List.mem_cons_self x (uniqAux x xs))
      · rcases @mem_uniqAux_of_mem a x xs hmem with heq | hmem2
        · exact Or.inr (heq ▸ List.mem_cons_self x (uniqAux x xs))
        · exact Or.inr (List.mem_cons_of_mem x hmem2)

theorem mem_uniq {a : String} : ∀ {l : List String}, a ∈ uniq l ↔ a ∈ l
  | [] => Iff.rfl
  | x :: xs => by
    simp only [uniq]
    constructor
    · intro h
      rcases List.mem_cons.mp h with heq | hmem
      · exact heq ▸ List.mem_cons_self x xs
      · exact List.mem_cons_of_mem x (mem_of_mem_uniqAux hmem)
    · intro h
      rcases List.mem_cons.mp h with heq | hmem
      · exact heq ▸ List.mem_cons_self x _
      · rcases @mem_uniqAux_of_mem a x xs hmem with heq | hmem2
        · exact heq ▸ List.mem_cons_self x _
        · exact List.mem_cons_of_mem x hmem2

theorem uniqAux_spec (prev : String) :
    ∀ l : List String, l.Sorted strLe → (∀ y ∈ l, strLe prev y) →
      (uniqAux prev l).Sorted strLe ∧ (uniqAux prev l).Nodup ∧
      (∀ z ∈ uniqAux prev l, strLe prev z ∧ z ≠ prev)
  | [], _, _ => by simp [uniqAux]
  | x :: xs, hs, hprev => by
    have hxall : ∀ y ∈ xs, strLe x y := List.rel_of_sorted_cons hs
    by_cases hx : x = prev
    · simp only [uniqAux, if_pos hx]
      exact uniqAux_spec prev xs hs.of_cons (fun y hy => hx ▸ hxall y hy)
    · simp only [uniqAux, if_neg hx]
      obtain ⟨ih_sorted, ih_nodup, ih_bound⟩ := uniqAux_spec x xs hs.of_cons hxall
      have hpx : strLe prev x := hprev x (List.mem_cons_self x xs)
      refine ⟨List.sorted_cons.mpr ⟨fun z hz => (ih_bound z hz).1, ih_sorted⟩,
        List.nodup_cons.mpr ⟨fun hmem => (ih_bound x hmem).2 rfl, ih_nodup⟩, ?_⟩
      intro z hz
      rcases List.mem_cons.mp hz with heq | hmem
      · exact ⟨heq ▸ hpx, heq ▸ hx⟩
      · obtain ⟨hxz, hzx⟩ := ih_bound z hmem
        refine ⟨lexLe_trans _ _ _ hpx hxz, fun hzp => ?_⟩
        exact hx (String.ext (lexLe_antisymm _ _ (hzp ▸ hxz) hpx))

theorem uniq_sorted_nodup :
    ∀ {l : List String}, l.Sorted strLe → (uniq l).Sorted strLe ∧ (uniq l).Nodup
  | [], _ => by simp [uniq]
  | x :: xs, hs => by
    simp only [uniq]
    obtain ⟨hsorted, hnodup, hbound⟩ :=
      uniqAux_spec x xs hs.of_cons (List.rel_of_sorted_cons hs)
    exact ⟨List.sorted_cons.mpr ⟨fun z hz => (hbound z hz).1, hsorted⟩,
      List.nodup_cons.mpr ⟨fun hmem => (hbound x hmem).2 rfl, hnodup⟩⟩

theorem uniqAux_eq_self (prev : String) :
    ∀ l : List String, l.Nodup → prev ∉ l → uniqAux prev l = l
  | [], _, _ => rfl
  | x :: xs, hnodup, hprev => by
    have hx : ¬ x = prev := fun h => hprev (h ▸ List.mem_cons_self x xs)
    simp only [uniqAux, if_neg hx]
    rw [uniqAux_eq_self x xs (List.nodup_cons.mp hnodup).2 (List.nodup_cons.mp hnodup).1]

theorem uniq_eq_self : ∀ {l : List String}, l.Nodup → uniq l = l
  | [], _ => rfl
  | x :: xs, hnodup => by
    simp only [uniq]
    rw [uniqAux_eq_self x xs (List.nodup_cons.mp hnodup).2 (List.nodup_cons.mp hnodup).1]

theorem sortStrings_sorted (l : List String) : (sortStrings l).Sorted strLe :=
  List.sorted_insertionSort strLe l

theorem sortStrings_perm (l : List String) : (sortStrings l).Perm l :=
  List.perm_insertionSort strLe l

theorem cleanStrings_sorted (l : List String) : (cleanStrings l).Sorted strLe :=
  (uniq_sorted_nodup (sortStrings_sorted l)).1

theorem cleanStrings_nodup (l : List String) : (cleanStrings l).Nodup :=
  (uniq_sorted_nodup (sortStrings_sorted l)).2

theorem mem_cleanStrings {a : String} {l : List String} :
    a ∈ cleanStrings l ↔ a ∈ l :=
  mem_uniq.trans (sortStrings_perm l).mem_iff

theorem cleanStrings_eq_self {l : List String} (hs : l.Sorted strLe) (hn : l.Nodup) :
    cleanStrings l = l := by
  unfold cleanStrings sortStrings
  rw [List.Sorted.insertionSort_eq hs, uniq_eq_self hn]

theorem cleanStrings_idem (l : List String) :
    cleanStrings (cleanStrings l) = cleanStrings l :=
  cleanStrings_eq_self (cleanStrings_sorted l) (cleanStrings_nodup l)

theorem cleanStrings_perm_congr {l₁ l₂ : List String} (h : l₁.Perm l₂) :
    cleanStrings l₁ = cleanStrings l₂ := by
  have hperm : (cleanStrings l₁).Perm (cleanStrings l₂) :=
    (List.perm_ext_iff_of_nodup (cleanStrings_nodup l₁) (cleanStrings_nodup l₂)).mpr
      (fun a => by rw [mem_cleanStrings, mem_cleanStrings]; exact h.mem_iff)
  exact List.eq_of_perm_of_sorted hperm (cleanStrings_sorted l₁) (cleanStrings_sorted l₂)

theorem filterMap_eq_self_of {α : Type} (f : α → Option α) :
    ∀ l : List α, (∀ e ∈ l, f e = some e) → l.filterMap f = l
  | [], _ => rfl
  | x :: xs, h => by
    rw [List.filterMap_cons, h x (List.mem_cons_self x xs),
      filterMap_eq_self_of f xs (fun e he => h e (List.mem_cons_of_mem x he))]


/-! ## C2 -/

theorem cleanEntry_some {generic : List String} {e x : String × List String}
    (h : cleanEntry generic e = some x) :
    x.2.Sorted strLe ∧ x.2.Nodup ∧ x.2 ≠ [] ∧ ∀ s ∈ x.2, s ∉ generic := by
  simp only [cleanEntry] at h
  by_cases hempty : (e.2.filter (fun s => !(generic.contains s))).isEmpty
  · rw [if_pos hempty] at h
    exact absurd h (by simp)
  · rw [if_neg hempty] at h
    have hx : x = (e.1, cleanStrings (e.2.filter (fun s => !(generic.contains s)))) :=
      (Option.some.injEq .. ▸ h).symm
    rw [hx]
    refine ⟨cleanStrings_sorted _, cleanStrings_nodup _, ?_, ?_⟩
    · intro hnil
      rw [List.isEmpty_iff] at hempty
      obtain ⟨y, hy⟩ := List.exists_mem_of_ne_nil _ hempty
      exact (List.ne_nil_of_mem (mem_cleanStrings.mpr hy)) hnil
    · intro s hs
      have hsf := List.of_mem_filter (mem_cleanStrings.mp hs)
      simpa using hsf

theorem cleanEntry_eq_some_self {generic : List String} {e : String × List String}
    (hs : e.2.Sorted strLe) (hn : e.2.Nodup) (hne : e.2 ≠ [])
    (hd : ∀ s ∈ e.2, s ∉ generic) :
    cleanEntry generic e = some e := by
  simp only [cleanEntry]
  have hfilter : e.2.filter (fun s => !(generic.contains s)) = e.2 :=
    List.filter_eq_self.mpr (fun a ha => by simpa using hd a ha)
  rw [hfilter, if_neg (by simpa [List.isEmpty_iff] using hne), cleanStrings_eq_self hs hn]

/-- C2: Clean is idempotent, and after one Clean the generic list is sorted
and duplicate-free, while every surviving per-platform list is sorted,
duplicate-free, non-empty (entries that became empty are pruned, hence a
mapping with no remaining entries is itself absent) and disjoint from the
generic list. -/
theorem c2_clean_idempotent_invariants (ps : PlatformStrings) :
    ps.Clean.Clean = ps.Clean ∧
    ps.Clean.Generic.Sorted strLe ∧ ps.Clean.Generic.Nodup ∧
    (∀ e ∈ ps.Clean.Platform,
      e.2.Sorted strLe ∧ e.2.Nodup ∧ e.2 ≠ [] ∧ ∀ s ∈ e.2, s ∉ ps.Clean.Generic) := by
  have hmem : ∀ e ∈ ps.Clean.Platform,
      e.2.Sorted strLe ∧ e.2.Nodup ∧ e.2 ≠ [] ∧ ∀ s ∈ e.2, s ∉ ps.Clean.Generic := by
    intro e he
    obtain ⟨a, -, ha⟩ := List.mem_filterMap.mp he
    exact cleanEntry_some ha
  refine ⟨?_, cleanStrings_sorted _, cleanStrings_nodup _, hmem⟩
  have hg : cleanStrings ps.Clean.Generic = ps.Clean.Generic := cleanStrings_idem ps.Generic
  calc ps.Clean.Clean
      = PlatformStrings.mk (cleanStrings ps.Clean.Generic)
          (ps.Clean.Platform.filterMap (cleanEntry (cleanStrings ps.Clean.Generic))) := rfl
    _ = PlatformStrings.mk ps.Clean.Generic
          (ps.Clean.Platform.filterMap (cleanEntry ps.Clean.Generic)) := by rw [hg]
    _ = PlatformStrings.mk ps.Clean.Generic ps.Clean.Platform := by
          rw [filterMap_eq_self_of _ _ (fun e he =>
            cleanEntry_eq_some_self (hmem e he).1 (hmem e he).2.1 (hmem e he).2.2.1
              (hmem e he).2.2.2)]
    _ = ps.Clean := rfl

def psW : PlatformStrings :=
  { Generic := [strX, strX], Platform := [(pLinux, [keyA]), (pDarwin, [strX])] }

theorem c2_witness :
    psW.Clean.Clean = psW.Clean ∧
    ((pLinux, [keyA]) : String × List String).2.Sorted strLe ∧
    ((pLinux, [keyA]) : String × List String).2.Nodup ∧
    ((pLinux, [keyA]) : String × List String).2 ≠ [] ∧
    (∀ s ∈ ((pLinux, [keyA]) : String × List String).2, s ∉ psW.Clean.Generic) :=
  ⟨(c2_clean_idempotent_invariants psW).1,
   (c2_clean_idempotent_invariants psW).2.2.2 (pLinux, [keyA]) (by decide)⟩

/-! ## C7 -/

theorem foldl_mapOne (f : String → Except String String) :
    ∀ (l : List String) (acc : List String × List String),
      l.foldl (mapOne f) acc =
        (acc.1 ++ l.filterMap (fun s => (f s).toOption),
         acc.2 ++ l.filterMap (fun s => match f s with | .error er => some er | .ok _ => none))
  | [], acc => by simp
  | s :: t, acc => by
    cases hfs : f s with
    | error er =>
      rw [List.foldl_cons, foldl_mapOne f t]
      simp [mapOne, hfs, Except.toOption, List.filterMap_cons]
    | ok r =>
      rw [List.foldl_cons, foldl_mapOne f t]
      simp [mapOne, hfs, Except.toOption, List.filterMap_cons]

theorem foldl_mapPlatform (f : String → Except String String) :
    ∀ (pl : List (String × List String)) (acc : List (String × List String) × List String),
      pl.foldl (fun acc e =>
          let inner := e.2.foldl (mapOne f) ([], acc.2)
          (acc.1 ++ [(e.1, inner.1)], inner.2)) acc =
        (acc.1 ++ pl.map (fun e => (e.1, e.2.filterMap (fun s => (f s).toOption))),
         acc.2 ++ pl.flatMap (fun e =>
           e.2.filterMap (fun s => match f s with | .error er => some er | .ok _ => none)))
  | [], acc => by simp
  | e :: t, acc => by
    rw [List.foldl_cons, foldl_mapPlatform f t]
    simp [foldl_mapOne f e.2, List.flatMap_cons]

/-- C7: Map applies the transform to every string in the generic list and in
every per-platform list, never short-circuits, and returns the structure of
surviving results together with the complete error list: the generic list's
failures first, then each platform entry's failures, each in traversal
order. -/
theorem c7_map_collects_errors (ps : PlatformStrings) (f : String → Except String String) :
    ps.Map f =
      ({ Generic := ps.Generic.filterMap (fun s => (f s).toOption),
         Platform := ps.Platform.map (fun e => (e.1, e.2.filterMap (fun s => (f s).toOption))) },
       ps.Generic.filterMap (fun s => match f s with | .error er => some er | .ok _ => none) ++
         ps.Platform.flatMap (fun e =>
           e.2.filterMap (fun s => match f s with | .error er => some er | .ok _ => none))) := by
  simp only [PlatformStrings.Map]
  rw [foldl_mapOne, foldl_mapPlatform]
  simp

/-! ## C4, C8, C10 -/

def cfgEmpty : Config := { genericTags := [], platforms := [] }

/-- A neutral file record to be specialized by the concrete examples. -/
def baseInfo : FileInfo :=
  { name := "", path := "", category := .goExt, isTest := false, isXTest := false
    isCgo := false, imports := [], copts := [], clinkopts := []
    goos := "", goarch := "", tags := [] }

def fooTestGo : String := "foo_test.go"

/-- A record with the test and cgo markers set but of ignored category. -/
def infoC4 : FileInfo :=
  { baseInfo with name := fooTestGo, path := fooTestGo, category := .ignoredExt
                  isTest := true, isCgo := true }

/-- C4 counterexample: a record with isTest and isCgo both set whose category
is ignored is dropped by the first routing case with no error, so the
cgo-in-test error is not unconditional over all file records. -/
theorem c4_counterexample :
    infoC4.isTest = true ∧ infoC4.isCgo = true ∧
    (Package.addFile cfgEmpty emptyPackage infoC4 false).2 = none := by decide

/-- C4 (amended): for every file record whose category is not
ignored/unsupported, isTest or isXTest together with isCgo forces the
cgo-in-test error, prefixed with the file's path, with the package returned
unchanged; and in general whenever addFile reports an error the package is
unchanged. -/
theorem c4_amended_cgo_test_error (c : Config) (p : Package) (info : FileInfo) (cgo : Bool) :
    (info.category ≠ .ignoredExt → info.category ≠ .unsupportedExt →
      (info.isTest = true ∨ info.isXTest = true) → info.isCgo = true →
      Package.addFile c p info cgo = (p, some (info.path ++ cgoTestMsg))) ∧
    (∀ e, (Package.addFile c p info cgo).2 = some e → (Package.addFile c p info cgo).1 = p) := by
  constructor
  · intro hcat hcat2 htest hcgo
    by_cases hx : info.isXTest = true
    · simp [Package.addFile, beq_iff_eq, hcat, hcat2, hx, hcgo]
    · have ht : info.isTest = true := by
        rcases htest with h | h
        · exact h
        · exact absurd h hx
      simp [Package.addFile, beq_iff_eq, hcat, hcat2, hx, ht, hcgo]
  · intro e
    unfold Package.addFile
    split_ifs <;> simp

def aPbGo : String := "a.pb.go"

/-- A generated-source-named record of ignored category. -/
def infoC8a : FileInfo :=
  { baseInfo with name := aPbGo, path := aPbGo, category := .ignoredExt }

/-- A generated-source-named record hitting the cgo-in-test error. -/
def infoC8b : FileInfo :=
  { baseInfo with name := aPbGo, path := aPbGo, isTest := true, isCgo := true }

/-- C8 counterexample: a ".pb.go"-named record of ignored category, and one
for which addFile reports an error, both leave HasPbGo unset, because both
paths return before the suffix check. -/
theorem c8_counterexample :
    hasSuf pbGoSuffix infoC8a.name.data = true ∧
    (Package.addFile cfgEmpty emptyPackage infoC8a false).1.HasPbGo = false ∧
    hasSuf pbGoSuffix infoC8b.name.data = true ∧
    (Package.addFile cfgEmpty emptyPackage infoC8b false).2 ≠ none ∧
    (Package.addFile cfgEmpty emptyPackage infoC8b false).1.HasPbGo = false := by decide

/-- C8 (amended): for every file record whose name ends in ".pb.go", every
routing case of addFile that is reached without an early return — that is,
any category other than ignored/unsupported and no error — sets HasPbGo. -/
theorem c8_amended_pbgo (c : Config) (p : Package) (info : FileInfo) (cgo : Bool)
    (hsuffix : hasSuf pbGoSuffix info.name.data = true)
    (hcat : info.category ≠ .ignoredExt) (hcat2 : info.category ≠ .unsupportedExt)
    (herr : (Package.addFile c p info cgo).2 = none) :
    (Package.addFile c p info cgo).1.HasPbGo = true := by
  unfold Package.addFile at herr ⊢
  split_ifs at herr ⊢ <;> simp_all [setPbGo, beq_iff_eq, hsuffix]

/-- A well-formed generated Go source record. -/
def infoC8w : FileInfo := { baseInfo with name := aPbGo, path := aPbGo }

theorem c8_witness :
    hasSuf pbGoSuffix infoC8w.name.data = true ∧
    infoC8w.category ≠ .ignoredExt ∧ infoC8w.category ≠ .unsupportedExt ∧
    (Package.addFile cfgEmpty emptyPackage infoC8w false).2 = none ∧
    (Package.addFile cfgEmpty emptyPackage infoC8w false).1.HasPbGo = true :=
  ⟨by decide, by decide, by decide, by decide,
   c8_amended_pbgo cfgEmpty emptyPackage infoC8w false (by decide) (by decide) (by decide)
     (by decide)⟩

/-- C10: a non-test, non-cgo record of c-family source or c-family assembly
category, in a package whose cgo flag is false, is silently dropped: no
error, no target changed, no protocol-file appended. -/
theorem c10_cfamily_dropped (c : Config) (p : Package) (info : FileInfo)
    (htest : info.isTest = false) (hxtest : info.isXTest = false) (hcgo : info.isCgo = false)
    (hcat : info.category = .cExt ∨ info.category = .csExt) :
    (Package.addFile c p info false).2 = none ∧
    (Package.addFile c p info false).1.Library = p.Library ∧
    (Package.addFile c p info false).1.CgoLibrary = p.CgoLibrary ∧
    (Package.addFile c p info false).1.Binary = p.Binary ∧
    (Package.addFile c p info false).1.Test = p.Test ∧
    (Package.addFile c p info false).1.XTest = p.XTest ∧
    (Package.addFile c p info false).1.Protos = p.Protos := by
  have key : Package.addFile c p info false = (setPbGo info p, none) := by
    rcases hcat with h | h <;>
      simp [Package.addFile, beq_iff_eq, h, htest, hxtest, hcgo, isCFamily]
  rw [key]
  unfold setPbGo
  split <;> simp

def fooDotC : String := "foo.c"

def infoC10 : FileInfo :=
  { baseInfo with name := fooDotC, path := fooDotC, category := .cExt }

theorem c10_witness :
    infoC10.isTest = false ∧ infoC10.isXTest = false ∧ infoC10.isCgo = false ∧
    (infoC10.category = .cExt ∨ infoC10.category = .csExt) ∧
    ((Package.addFile cfgEmpty emptyPackage infoC10 false).2 = none ∧
     (Package.addFile cfgEmpty emptyPackage infoC10 false).1.Library = emptyPackage.Library ∧
     (Package.addFile cfgEmpty emptyPackage infoC10 false).1.CgoLibrary = emptyPackage.CgoLibrary ∧
     (Package.addFile cfgEmpty emptyPackage infoC10 false).1.Binary = emptyPackage.Binary ∧
     (Package.addFile cfgEmpty emptyPackage infoC10 false).1.Test = emptyPackage.Test ∧
     (Package.addFile cfgEmpty emptyPackage infoC10 false).1.XTest = emptyPackage.XTest ∧
     (Package.addFile cfgEmpty emptyPackage infoC10 false).1.Protos = emptyPackage.Protos) :=
  ⟨by decide, by decide, by decide, Or.inl (by decide),
   c10_cfamily_dropped cfgEmpty emptyPackage infoC10 (by decide) (by decide) (by decide)
     (Or.inl (by decide))⟩

def infoC4w : FileInfo :=
  { baseInfo with name := fooTestGo, path := fooTestGo, isTest := true, isCgo := true }

theorem c4_witness :
    (infoC4w.category ≠ .ignoredExt ∧ infoC4w.category ≠ .unsupportedExt ∧
      infoC4w.isTest = true ∧ infoC4w.isCgo = true ∧
      Package.addFile cfgEmpty emptyPackage infoC4w false =
        (emptyPackage, some (infoC4w.path ++ cgoTestMsg))) ∧
    ((Package.addFile cfgEmpty emptyPackage infoC4w false).2 = some (infoC4w.path ++ cgoTestMsg) →
      (Package.addFile cfgEmpty emptyPackage infoC4w false).1 = emptyPackage) :=
  ⟨⟨by decide, by decide, by decide, by decide,
    (c4_amended_cgo_test_error cfgEmpty emptyPackage infoC4w false).1 (by decide) (by decide)
      (Or.inl (by decide)) (by decide)⟩,
   (c4_amended_cgo_test_error cfgEmpty emptyPackage infoC4w false).2 (infoC4w.path ++ cgoTestMsg)⟩

/-! ## Lookup and fold machinery -/

theorem lk_updateApp_self : ∀ (m : List (String × List String)) (k : String) (ss : List String),
    lk (updateApp m k ss) k = lk m k ++ ss
  | [], k, ss => by simp [updateApp, lk]
  | e :: m, k, ss => by
    by_cases h : e.1 = k
    · simp [updateApp, lk, h]
    · simp [updateApp, lk, h, lk_updateApp_self m k ss]

theorem lk_updateApp_ne : ∀ (m : List (String × List String)) (k j : String) (ss : List String),
    j ≠ k → lk (updateApp m k ss) j = lk m j
  | [], k, j, ss, h => by
    have hkj : ¬ k = j := fun hh => h hh.symm
    simp [updateApp, lk, hkj]
  | e :: m, k, j, ss, h => by
    have hkj : ¬ k = j := fun hh => h hh.symm
    by_cases he : e.1 = k
    · have hej : ¬ e.1 = j := fun hh => h (hh.symm.trans he)
      simp [updateApp, lk, he, hej, hkj]
    · by_cases hej : e.1 = j
      · simp [updateApp, lk, he, hej, h]
      · simp [updateApp, lk, he, hej, lk_updateApp_ne m k j ss h]

theorem lk_updateApp (m : List (String × List String)) (n k : String) (ss : List String) :
    lk (updateApp m n ss) k = lk m k ++ (if n = k then ss else []) := by
  by_cases h : n = k
  · subst h
    simp [lk_updateApp_self]
  · rw [lk_updateApp_ne m n k ss (fun hh => h hh.symm), if_neg h, List.append_nil]

def NodupKeys (m : List (String × List String)) : Prop := (m.map Prod.fst).Nodup

instance (m : List (String × List String)) : Decidable (NodupKeys m) :=
  inferInstanceAs (Decidable ((m.map Prod.fst).Nodup))

theorem keys_updateApp : ∀ (m : List (String × List String)) (k : String) (ss : List String),
    (updateApp m k ss).map Prod.fst =
      if k ∈ m.map Prod.fst then m.map Prod.fst else m.map Prod.fst ++ [k]
  | [], k, ss => by simp [updateApp]
  | e :: m, k, ss => by
    by_cases he : e.1 = k
    · simp [updateApp, he]
    · have hke : ¬ k = e.1 := fun hh => he hh.symm
      by_cases hk : k ∈ m.map Prod.fst
      · simp [updateApp, he, keys_updateApp m k ss, hk, hke]
      · simp [updateApp, he, keys_updateApp m k ss, hk, hke]

theorem nodupKeys_updateApp {m : List (String × List String)} (k : String) (ss : List String)
    (h : NodupKeys m) : NodupKeys (updateApp m k ss) := by
  unfold NodupKeys at *
  rw [keys_updateApp]
  by_cases hk : k ∈ m.map Prod.fst
  · rwa [if_pos hk]
  · rw [if_neg hk]
    exact List.Nodup.append h (List.nodup_singleton k)
      (fun a ha hb => hk ((List.mem_singleton.mp hb) ▸ ha))

theorem fold_preserve {σ β : Type} (P : σ → Prop) (step : σ → β → σ)
    (h : ∀ s e, P s → P (step s e)) :
    ∀ (l : List β) (s : σ), P s → P (l.foldl step s)
  | [], _, hs => hs
  | e :: t, s, hs => by
    rw [List.foldl_cons]
    exact fold_preserve P step h t (step s e) (h s e hs)

theorem fold_proj_const {σ β γ : Type} (π : σ → γ) (step : σ → β → σ)
    (h : ∀ s e, π (step s e) = π s) :
    ∀ (l : List β) (s : σ), π (l.foldl step s) = π s
  | [], _ => rfl
  | e :: t, s => by
    rw [List.foldl_cons, fold_proj_const π step h t (step s e), h]

theorem fold_proj_append {σ β γ : Type} (π : σ → List γ) (step : σ → β → σ)
    (contrib : β → List γ)
    (h : ∀ s e, π (step s e) = π s ++ contrib e) :
    ∀ (l : List β) (s : σ), π (l.foldl step s) = π s ++ l.flatMap contrib
  | [], s => by simp
  | e :: t, s => by
    rw [List.foldl_cons, fold_proj_append π step contrib h t (step s e), h,
      List.flatMap_cons, List.append_assoc]

theorem fold_proj_lk {σ β : Type} (π : σ → List (String × List String)) (step : σ → β → σ)
    (contrib : β → String → List String)
    (h : ∀ s e k, lk (π (step s e)) k = lk (π s) k ++ contrib e k) :
    ∀ (l : List β) (s : σ) (k : String),
      lk (π (l.foldl step s)) k = lk (π s) k ++ l.flatMap (fun e => contrib e k)
  | [], s, k => by simp
  | e :: t, s, k => by
    rw [List.foldl_cons, fold_proj_lk π step contrib h t (step s e) k, h,
      List.flatMap_cons, List.append_assoc]

theorem fold_proj_or {σ β : Type} (π : σ → Bool) (step : σ → β → σ) (contrib : β → Bool)
    (h : ∀ s e, π (step s e) = (π s || contrib e)) :
    ∀ (l : List β) (s : σ), π (l.foldl step s) = (π s || l.any contrib)
  | [], s => by simp
  | e :: t, s => by
    rw [List.foldl_cons, fold_proj_or π step contrib h t (step s e), h]
    simp [Bool.or_assoc]

theorem fold_proj_ite {σ τ β : Type} (π : σ → τ) (step : σ → β → σ) (g : τ → β → τ)
    (cond : β → Bool)
    (h : ∀ s e, π (step s e) = if cond e then g (π s) e else π s) :
    ∀ (l : List β) (s : σ), π (l.foldl step s) = (l.filter cond).foldl g (π s)
  | [], _ => rfl
  | e :: t, s => by
    rw [List.foldl_cons, fold_proj_ite π step g cond h t (step s e), h]
    by_cases hc : cond e
    · simp [hc]
    · simp [hc]

theorem flatMap_if_single {β γ : Type} (c : β → Bool) (f : β → γ) :
    ∀ l : List β, (l.flatMap (fun b => if c b then [f b] else [])) = (l.filter c).map f
  | [] => rfl
  | b :: t => by
    by_cases hb : c b
    · simp [hb, flatMap_if_single c f t]
    · simp [hb, flatMap_if_single c f t]

theorem flatMap_eq_nil_of {β γ : Type} (f : β → List γ) :
    ∀ l : List β, (∀ e ∈ l, f e = []) → l.flatMap f = []
  | [], _ => rfl
  | b :: t, h => by
    rw [List.flatMap_cons, h b (List.mem_cons_self b t),
      flatMap_eq_nil_of f t (fun e he => h e (List.mem_cons_of_mem b he)), List.append_nil]

theorem flatMap_entry_single {γ : Type} :
    ∀ (platforms : List (String × List String)) (nm : String) (tags : List String),
      (nm, tags) ∈ platforms → NodupKeys platforms →
      ∀ f : (String × List String) → List γ, (∀ e, e.1 ≠ nm → f e = []) →
      platforms.flatMap f = f (nm, tags)
  | [], nm, tags, hmem, _, _, _ => absurd hmem (by simp)
  | e :: t, nm, tags, hmem, hnodup, f, hf => by
    unfold NodupKeys at hnodup
    simp only [List.map_cons, List.nodup_cons] at hnodup
    rcases List.mem_cons.mp hmem with heq | hmem2
    · have hkey : e.1 = nm := by rw [← heq]
      rw [List.flatMap_cons, flatMap_eq_nil_of f t (fun e2 he2 => hf e2 (fun hk =>
        absurd (hkey.symm ▸ (hk ▸ List.mem_map_of_mem Prod.fst he2) : e.1 ∈ t.map Prod.fst)
          hnodup.1))]
      rw [← heq]
      simp
    · have hke : e.1 ≠ nm := fun hk => by
        exact hnodup.1 (hk ▸ (List.mem_map_of_mem Prod.fst hmem2 : nm ∈ t.map Prod.fst))
      rw [List.flatMap_cons, hf e hke,
        flatMap_entry_single t nm tags hmem2 hnodup.2 f hf]
      simp

/-! ## Contribution characterization of the add operations -/

theorem if_if_eq_and {γ : Type} (A B : Bool) (x : List γ) :
    (if A = true then (if B = true then x else []) else []) =
      (if (A && B) = true then x else []) := by
  cases A <;> cases B <;> simp

/-- The generic-branch test of Target.addFile: the file has no constraints,
or its constraints hold under the configured generic tags. -/
def genBranch (c : Config) (info : FileInfo) : Bool :=
  !info.hasConstraints || info.checkConstraints c.genericTags

theorem addTaggedOpts_generic (ps : PlatformStrings) (nm : String) (opts : List TaggedOpts)
    (tags : List String) :
    (ps.addTaggedOpts nm opts tags).Generic = ps.Generic := by
  unfold PlatformStrings.addTaggedOpts
  exact fold_proj_const PlatformStrings.Generic _ (fun s o => by
    by_cases h : (o.tags == "" || checkTags o.tags tags) = true
    · simp [h]
    · simp [h]) opts ps

theorem lk_addTaggedOpts (ps : PlatformStrings) (nm : String) (opts : List TaggedOpts)
    (tags : List String) (k : String) :
    lk (ps.addTaggedOpts nm opts tags).Platform k = lk ps.Platform k ++
      (if nm = k then
        (opts.filter (fun o => o.tags == "" || checkTags o.tags tags)).map (fun o => o.opts)
       else []) := by
  unfold PlatformStrings.addTaggedOpts
  rw [fold_proj_lk PlatformStrings.Platform _
    (fun o k2 => if (o.tags == "" || checkTags o.tags tags) = true then
        (if nm = k2 then [o.opts] else []) else [])
    (fun s o k2 => by
      by_cases h : (o.tags == "" || checkTags o.tags tags) = true
      · simp only [if_pos h]
        exact lk_updateApp s.Platform nm k2 [o.opts]
      · simp [h]) opts ps k]
  by_cases hk : nm = k
  · simp only [if_pos hk]
    rw [flatMap_if_single]
  · simp only [if_neg hk]
    rw [flatMap_eq_nil_of _ _ (fun o _ => by simp [hk])]

theorem addGenericOpts_generic (ps : PlatformStrings) (platforms : List (String × List String))
    (opts : List TaggedOpts) :
    (ps.addGenericOpts platforms opts).Generic =
      ps.Generic ++ (opts.filter (fun o => o.tags == "")).map (fun o => o.opts) := by
  unfold PlatformStrings.addGenericOpts
  rw [fold_proj_append PlatformStrings.Generic _
    (fun o => if (o.tags == "") = true then [o.opts] else [])
    (fun s o => by
      by_cases h : (o.tags == "") = true
      · simp [h]
      · simp only [if_neg h]
        rw [fold_proj_const PlatformStrings.Generic _ (fun s2 e => by
          by_cases h2 : checkTags o.tags e.2 = true
          · simp [h2]
          · simp [h2]) platforms s]
        simp) opts ps]
  rw [flatMap_if_single]

theorem lk_addGenericOpts (ps : PlatformStrings) (platforms : List (String × List String))
    (opts : List TaggedOpts) (k : String) :
    lk (ps.addGenericOpts platforms opts).Platform k = lk ps.Platform k ++
      opts.flatMap (fun o => if (o.tags == "") = true then [] else
        platforms.flatMap (fun e => if checkTags o.tags e.2 = true then
          (if e.1 = k then [o.opts] else []) else [])) := by
  unfold PlatformStrings.addGenericOpts
  rw [fold_proj_lk PlatformStrings.Platform _
    (fun o k2 => if (o.tags == "") = true then [] else
      platforms.flatMap (fun e => if checkTags o.tags e.2 = true then
        (if e.1 = k2 then [o.opts] else []) else []))
    (fun s o k2 => by
      by_cases h : (o.tags == "") = true
      · simp [h]
      · simp only [if_neg h]
        rw [fold_proj_lk PlatformStrings.Platform _
          (fun e k3 => if checkTags o.tags e.2 = true then (if e.1 = k3 then [o.opts] else []) else [])
          (fun s2 e k3 => by
            by_cases h2 : checkTags o.tags e.2 = true
            · simp only [if_pos h2]
              exact lk_updateApp s2.Platform e.1 k3 [o.opts]
            · simp [h2]) platforms s k2]) opts ps k]

/-! ## Per-file contributions of Target.addFile -/

def srcGen (c : Config) (info : FileInfo) : List String :=
  if genBranch c info then [info.name] else []

def impGen (c : Config) (info : FileInfo) : List String :=
  if genBranch c info then info.imports else []

def coptGen (c : Config) (info : FileInfo) : List String :=
  if genBranch c info then (info.copts.filter (fun o => o.tags == "")).map (fun o => o.opts)
  else []

def clinkGen (c : Config) (info : FileInfo) : List String :=
  if genBranch c info then (info.clinkopts.filter (fun o => o.tags == "")).map (fun o => o.opts)
  else []

def srcPlat (c : Config) (info : FileInfo) (k : String) : List String :=
  if genBranch c info then [] else
    c.platforms.flatMap (fun e => if info.checkConstraints e.2 = true then
      (if e.1 = k then [info.name] else []) else [])

def impPlat (c : Config) (info : FileInfo) (k : String) : List String :=
  if genBranch c info then [] else
    c.platforms.flatMap (fun e => if info.checkConstraints e.2 = true then
      (if e.1 = k then info.imports else []) else [])

def taggedPlat (opts : List TaggedOpts) (c : Config) (info : FileInfo) (k : String) : List String :=
  if genBranch c info then
    opts.flatMap (fun o => if (o.tags == "") = true then [] else
      c.platforms.flatMap (fun e => if checkTags o.tags e.2 = true then
        (if e.1 = k then [o.opts] else []) else []))
  else
    c.platforms.flatMap (fun e => if info.checkConstraints e.2 = true then
      (if e.1 = k then
        (opts.filter (fun o => o.tags == "" || checkTags o.tags e.2)).map (fun o => o.opts)
       else []) else [])

/-- Full characterization of one Target.addFile call: every component of the
target is extended by the per-file contribution functions above. -/
theorem target_addFile_char (c : Config) (t : Target) (info : FileInfo) :
    (Target.addFile c t info).Sources.Generic = t.Sources.Generic ++ srcGen c info ∧
    (Target.addFile c t info).Imports.Generic = t.Imports.Generic ++ impGen c info ∧
    (Target.addFile c t info).COpts.Generic = t.COpts.Generic ++ coptGen c info ∧
    (Target.addFile c t info).CLinkOpts.Generic = t.CLinkOpts.Generic ++ clinkGen c info ∧
    (∀ k, lk (Target.addFile c t info).Sources.Platform k =
      lk t.Sources.Platform k ++ srcPlat c info k) ∧
    (∀ k, lk (Target.addFile c t info).Imports.Platform k =
      lk t.Imports.Platform k ++ impPlat c info k) ∧
    (∀ k, lk (Target.addFile c t info).COpts.Platform k =
      lk t.COpts.Platform k ++ taggedPlat info.copts c info k) ∧
    (∀ k, lk (Target.addFile c t info).CLinkOpts.Platform k =
      lk t.CLinkOpts.Platform k ++ taggedPlat info.clinkopts c info k) := by
  by_cases hgb : genBranch c info
  case pos =>
    have hgb2 : (!info.hasConstraints || info.checkConstraints c.genericTags) = true := hgb
    unfold Target.addFile
    rw [if_pos hgb2]
    unfold srcGen impGen coptGen clinkGen srcPlat impPlat taggedPlat
    simp only [if_pos hgb]
    refine ⟨rfl, rfl, addGenericOpts_generic _ _ _, addGenericOpts_generic _ _ _,
      fun k => by simp [PlatformStrings.addGenericStrings],
      fun k => by simp [PlatformStrings.addGenericStrings],
      fun k => lk_addGenericOpts _ _ _ _,
      fun k => lk_addGenericOpts _ _ _ _⟩
  case neg =>
    have hgb2 : ¬ (!info.hasConstraints || info.checkConstraints c.genericTags) = true := hgb
    unfold Target.addFile
    rw [if_neg hgb2]
    unfold srcGen impGen coptGen clinkGen srcPlat impPlat taggedPlat
    simp only [if_neg hgb]
    refine ⟨?_, ?_, ?_, ?_, ?_, ?_, ?_, ?_⟩
    · rw [fold_proj_const (fun t2 : Target => t2.Sources.Generic) _ (fun s e => by
        by_cases h2 : info.checkConstraints e.2 = true
        · simp [h2, PlatformStrings.addPlatformStrings]
        · simp [h2]) c.platforms t, List.append_nil]
    · rw [fold_proj_const (fun t2 : Target => t2.Imports.Generic) _ (fun s e => by
        by_cases h2 : info.checkConstraints e.2 = true
        · simp [h2, PlatformStrings.addPlatformStrings]
        · simp [h2]) c.platforms t, List.append_nil]
    · rw [fold_proj_const (fun t2 : Target => t2.COpts.Generic) _ (fun s e => by
        by_cases h2 : info.checkConstraints e.2 = true
        · simp only [if_pos h2]
          exact addTaggedOpts_generic _ _ _ _
        · simp [h2]) c.platforms t, List.append_nil]
    · rw [fold_proj_const (fun t2 : Target => t2.CLinkOpts.Generic) _ (fun s e => by
        by_cases h2 : info.checkConstraints e.2 = true
        · simp only [if_pos h2]
          exact addTaggedOpts_generic _ _ _ _
        · simp [h2]) c.platforms t, List.append_nil]
    · intro k
      rw [fold_proj_lk (fun t2 : Target => t2.Sources.Platform) _
        (fun e k2 => if info.checkConstraints e.2 = true then
          (if e.1 = k2 then [info.name] else []) else [])
        (fun s e k2 => by
          by_cases h2 : info.checkConstraints e.2 = true
          · simp only [if_pos h2]
            exact lk_updateApp s.Sources.Platform e.1 k2 [info.name]
          · simp [h2]) c.platforms t k]
    · intro k
      rw [fold_proj_lk (fun t2 : Target => t2.Imports.Platform) _
        (fun e k2 => if info.checkConstraints e.2 = true then
          (if e.1 = k2 then info.imports else []) else [])
        (fun s e k2 => by
          by_cases h2 : info.checkConstraints e.2 = true
          · simp only [if_pos h2]
            exact lk_updateApp s.Imports.Platform e.1 k2 info.imports
          · simp [h2]) c.platforms t k]
    · intro k
      rw [fold_proj_lk (fun t2 : Target => t2.COpts.Platform) _
        (fun e k2 => if info.checkConstraints e.2 = true then
          (if e.1 = k2 then
            (info.copts.filter (fun o => o.tags == "" || checkTags o.tags e.2)).map
              (fun o => o.opts) else []) else [])
        (fun s e k2 => by
          by_cases h2 : info.checkConstraints e.2 = true
          · simp only [if_pos h2]
            exact lk_addTaggedOpts s.COpts e.1 info.copts e.2 k2
          · simp [h2]) c.platforms t k]
    · intro k
      rw [fold_proj_lk (fun t2 : Target => t2.CLinkOpts.Platform) _
        (fun e k2 => if info.checkConstraints e.2 = true then
          (if e.1 = k2 then
            (info.clinkopts.filter (fun o => o.tags == "" || checkTags o.tags e.2)).map
              (fun o => o.opts) else []) else [])
        (fun s e k2 => by
          by_cases h2 : info.checkConstraints e.2 = true
          · simp only [if_pos h2]
            exact lk_addTaggedOpts s.CLinkOpts e.1 info.clinkopts e.2 k2
          · simp [h2]) c.platforms t k]

/-! ## Contributions evaluated at a platform-table entry -/

theorem taggedPlat_entry_gen {c : Config} {info : FileInfo} {nm : String} {tags : List String}
    (opts : List TaggedOpts) (hgb : genBranch c info = true)
    (hmem : (nm, tags) ∈ c.platforms) (hnodup : NodupKeys c.platforms) :
    taggedPlat opts c info nm =
      (opts.filter (fun o => !(o.tags == "") && checkTags o.tags tags)).map (fun o => o.opts) := by
  unfold taggedPlat
  rw [if_pos hgb]
  have hfun : ∀ o : TaggedOpts,
      (if (o.tags == "") = true then [] else
        c.platforms.flatMap (fun e => if checkTags o.tags e.2 = true then
          (if e.1 = nm then [o.opts] else []) else [])) =
      (if (!(o.tags == "") && checkTags o.tags tags) = true then [o.opts] else []) := by
    intro o
    by_cases ho : (o.tags == "") = true
    · simp [ho]
    · rw [if_neg ho, flatMap_entry_single c.platforms nm tags hmem hnodup _
        (fun e he => by by_cases hc : checkTags o.tags e.2 = true <;> simp [hc, he])]
      by_cases hc : checkTags o.tags tags = true <;> simp [hc, ho]
  rw [funext hfun, flatMap_if_single]

theorem taggedPlat_entry_con {c : Config} {info : FileInfo} {nm : String} {tags : List String}
    (opts : List TaggedOpts) (hgb : genBranch c info = false)
    (hmem : (nm, tags) ∈ c.platforms) (hnodup : NodupKeys c.platforms) :
    taggedPlat opts c info nm =
      (if info.checkConstraints tags = true then
        (opts.filter (fun o => o.tags == "" || checkTags o.tags tags)).map (fun o => o.opts)
       else []) := by
  unfold taggedPlat
  rw [if_neg (by simp [hgb]), flatMap_entry_single c.platforms nm tags hmem hnodup _
    (fun e he => by by_cases hc : info.checkConstraints e.2 = true <;> simp [hc, he])]
  by_cases hc : info.checkConstraints tags = true <;> simp [hc]

theorem srcPlat_entry_con {c : Config} {info : FileInfo} {nm : String} {tags : List String}
    (hgb : genBranch c info = false)
    (hmem : (nm, tags) ∈ c.platforms) (hnodup : NodupKeys c.platforms) :
    srcPlat c info nm = (if info.checkConstraints tags = true then [info.name] else []) := by
  unfold srcPlat
  rw [if_neg (by simp [hgb]), flatMap_entry_single c.platforms nm tags hmem hnodup _
    (fun e he => by by_cases hc : info.checkConstraints e.2 = true <;> simp [hc, he])]
  by_cases hc : info.checkConstraints tags = true <;> simp [hc]

theorem impPlat_entry_con {c : Config} {info : FileInfo} {nm : String} {tags : List String}
    (hgb : genBranch c info = false)
    (hmem : (nm, tags) ∈ c.platforms) (hnodup : NodupKeys c.platforms) :
    impPlat c info nm = (if info.checkConstraints tags = true then info.imports else []) := by
  unfold impPlat
  rw [if_neg (by simp [hgb]), flatMap_entry_single c.platforms nm tags hmem hnodup _
    (fun e he => by by_cases hc : info.checkConstraints e.2 = true <;> simp [hc, he])]
  by_cases hc : info.checkConstraints tags = true <;> simp [hc]

theorem srcPlat_outside {c : Config} {info : FileInfo} {k : String}
    (hk : k ∉ c.platforms.map Prod.fst) : srcPlat c info k = [] := by
  unfold srcPlat
  by_cases hgb : genBranch c info
  · simp [hgb]
  · rw [if_neg hgb, flatMap_eq_nil_of _ _ (fun e he => by
      have : ¬ e.1 = k := fun hh => hk (hh ▸ List.mem_map_of_mem Prod.fst he)
      by_cases hc : info.checkConstraints e.2 = true <;> simp [hc, this])]

theorem impPlat_outside {c : Config} {info : FileInfo} {k : String}
    (hk : k ∉ c.platforms.map Prod.fst) : impPlat c info k = [] := by
  unfold impPlat
  by_cases hgb : genBranch c info
  · simp [hgb]
  · rw [if_neg hgb, flatMap_eq_nil_of _ _ (fun e he => by
      have : ¬ e.1 = k := fun hh => hk (hh ▸ List.mem_map_of_mem Prod.fst he)
      by_cases hc : info.checkConstraints e.2 = true <;> simp [hc, this])]

theorem taggedPlat_outside {c : Config} {info : FileInfo} {k : String} (opts : List TaggedOpts)
    (hk : k ∉ c.platforms.map Prod.fst) : taggedPlat opts c info k = [] := by
  unfold taggedPlat
  by_cases hgb : genBranch c info
  · rw [if_pos hgb, flatMap_eq_nil_of _ _ (fun o _ => by
      by_cases ho : (o.tags == "") = true
      · simp [ho]
      · rw [if_neg ho, flatMap_eq_nil_of _ _ (fun e he => by
          have : ¬ e.1 = k := fun hh => hk (hh ▸ List.mem_map_of_mem Prod.fst he)
          by_cases hc : checkTags o.tags e.2 = true <;> simp [hc, this])])]
  · rw [if_neg hgb, flatMap_eq_nil_of _ _ (fun e he => by
      have : ¬ e.1 = k := fun hh => hk (hh ▸ List.mem_map_of_mem Prod.fst he)
      by_cases hc : info.checkConstraints e.2 = true <;> simp [hc, this])]

/-! ## C9 -/

/-- C9: for a file with no platform constraint of its own, each compiler or
linker opt with a non-empty tag expression is re-tested with checkTags per
platform and lands in exactly the per-platform opt sets whose satisfied-tag
set passes, while exactly the opts with an empty tag expression land in the
generic opt set; platforms outside the table are untouched. -/
theorem c9_tagged_opts_per_platform (c : Config) (t : Target) (info : FileInfo)
    (hnc : info.hasConstraints = false) (hnodup : NodupKeys c.platforms) :
    (Target.addFile c t info).COpts.Generic =
      t.COpts.Generic ++ (info.copts.filter (fun o => o.tags == "")).map (fun o => o.opts) ∧
    (Target.addFile c t info).CLinkOpts.Generic =
      t.CLinkOpts.Generic ++ (info.clinkopts.filter (fun o => o.tags == "")).map (fun o => o.opts) ∧
    (∀ nm tags, (nm, tags) ∈ c.platforms →
      lk (Target.addFile c t info).COpts.Platform nm =
        lk t.COpts.Platform nm ++
          (info.copts.filter (fun o => !(o.tags == "") && checkTags o.tags tags)).map
            (fun o => o.opts) ∧
      lk (Target.addFile c t info).CLinkOpts.Platform nm =
        lk t.CLinkOpts.Platform nm ++
          (info.clinkopts.filter (fun o => !(o.tags == "") && checkTags o.tags tags)).map
            (fun o => o.opts)) ∧
    (∀ k, k ∉ c.platforms.map Prod.fst →
      lk (Target.addFile c t info).COpts.Platform k = lk t.COpts.Platform k ∧
      lk (Target.addFile c t info).CLinkOpts.Platform k = lk t.CLinkOpts.Platform k) := by
  have hgb : genBranch c info = true := by simp [genBranch, hnc]
  obtain ⟨-, -, hco, hcl, -, -, hlkco, hlkcl⟩ := target_addFile_char c t info
  refine ⟨?_, ?_, ?_, ?_⟩
  · rw [hco]
    unfold coptGen
    rw [if_pos hgb]
  · rw [hcl]
    unfold clinkGen
    rw [if_pos hgb]
  · intro nm tags hmem
    rw [hlkco nm, hlkcl nm, taggedPlat_entry_gen info.copts hgb hmem hnodup,
      taggedPlat_entry_gen info.clinkopts hgb hmem hnodup]
    exact ⟨rfl, rfl⟩
  · intro k hk
    rw [hlkco k, hlkcl k, taggedPlat_outside info.copts hk, taggedPlat_outside info.clinkopts hk]
    simp

def optPlain : String := "-O0"
def optBar : String := "-lbar"

def cW9 : Config := { genericTags := [], platforms := [(pLinux, [tagFoo]), (pDarwin, [])] }

def infoW9 : FileInfo :=
  { baseInfo with name := strX
                  copts := [{ tags := "", opts := optPlain }, { tags := tagFoo, opts := optBar }] }

theorem c9_witness :
    infoW9.hasConstraints = false ∧ NodupKeys cW9.platforms ∧
    ((pLinux, [tagFoo]) ∈ cW9.platforms) ∧
    (Target.addFile cW9 emptyTarget infoW9).COpts.Generic =
      emptyTarget.COpts.Generic ++
        (infoW9.copts.filter (fun o => o.tags == "")).map (fun o => o.opts) ∧
    lk (Target.addFile cW9 emptyTarget infoW9).COpts.Platform pLinux =
      lk emptyTarget.COpts.Platform pLinux ++
        (infoW9.copts.filter (fun o => !(o.tags == "") && checkTags o.tags [tagFoo])).map
          (fun o => o.opts) :=
  ⟨by decide, by decide, by decide,
   (c9_tagged_opts_per_platform cW9 emptyTarget infoW9 (by decide) (by decide)).1,
   ((c9_tagged_opts_per_platform cW9 emptyTarget infoW9 (by decide) (by decide)).2.2.1
     pLinux [tagFoo] (by decide)).1⟩

/-! ## C1 -/

def fGo : String := "f.go"

def cC1 : Config := { genericTags := [tagFoo], platforms := [(pLinux, [tagBar])] }

def infoC1 : FileInfo :=
  { baseInfo with name := fGo, path := fGo, tags := [tagFoo]
                  copts := [{ tags := tagBar, opts := optBar }] }

/-- C1 counterexample: a file whose own tag constraint is satisfied by the
configured generic tags is routed to the generic sets — its name lands in
the generic source list, not in any platform's list, even though
checkConstraints fails on the only platform — and its tagged compiler opt
lands in a platform's opt set. -/
theorem c1_counterexample :
    infoC1.hasConstraints = true ∧
    FileInfo.checkConstraints infoC1 [tagBar] = false ∧
    (Target.addFile cC1 emptyTarget infoC1).Sources.Generic = [fGo] ∧
    lk (Target.addFile cC1 emptyTarget infoC1).Sources.Platform pLinux = [] ∧
    lk (Target.addFile cC1 emptyTarget infoC1).COpts.Platform pLinux = [optBar] ∧
    (Target.addFile cC1 emptyTarget infoC1).COpts.Generic = [] := by decide

/-- C1 (amended): Target.addFile routes the file's name and imports to the
generic sets exactly when the file has no platform constraint or its
constraints pass under the configured generic tags (opts with an empty tag
expression join them; tagged opts are re-tested per platform); otherwise,
for every platform in the table, the name, imports, and the opts whose tag
expression is empty or passes that platform's tags are appended to exactly
the platforms passing checkConstraints, and nothing is added to the generic
sets or any other platform. -/
theorem c1_amended_routing (c : Config) (t : Target) (info : FileInfo)
    (hnodup : NodupKeys c.platforms) :
    (genBranch c info = true →
      (Target.addFile c t info).Sources.Generic = t.Sources.Generic ++ [info.name] ∧
      (Target.addFile c t info).Imports.Generic = t.Imports.Generic ++ info.imports ∧
      (Target.addFile c t info).COpts.Generic =
        t.COpts.Generic ++ (info.copts.filter (fun o => o.tags == "")).map (fun o => o.opts) ∧
      (Target.addFile c t info).CLinkOpts.Generic =
        t.CLinkOpts.Generic ++
          (info.clinkopts.filter (fun o => o.tags == "")).map (fun o => o.opts) ∧
      (∀ k, lk (Target.addFile c t info).Sources.Platform k = lk t.Sources.Platform k) ∧
      (∀ k, lk (Target.addFile c t info).Imports.Platform k = lk t.Imports.Platform k) ∧
      (∀ nm tags, (nm, tags) ∈ c.platforms →
        lk (Target.addFile c t info).COpts.Platform nm =
          lk t.COpts.Platform nm ++
            (info.copts.filter (fun o => !(o.tags == "") && checkTags o.tags tags)).map
              (fun o => o.opts) ∧
        lk (Target.addFile c t info).CLinkOpts.Platform nm =
          lk t.CLinkOpts.Platform nm ++
            (info.clinkopts.filter (fun o => !(o.tags == "") && checkTags o.tags tags)).map
              (fun o => o.opts)) ∧
      (∀ k, k ∉ c.platforms.map Prod.fst →
        lk (Target.addFile c t info).COpts.Platform k = lk t.COpts.Platform k ∧
        lk (Target.addFile c t info).CLinkOpts.Platform k = lk t.CLinkOpts.Platform k)) ∧
    (genBranch c info = false →
      (Target.addFile c t info).Sources.Generic = t.Sources.Generic ∧
      (Target.addFile c t info).Imports.Generic = t.Imports.Generic ∧
      (Target.addFile c t info).COpts.Generic = t.COpts.Generic ∧
      (Target.addFile c t info).CLinkOpts.Generic = t.CLinkOpts.Generic ∧
      (∀ nm tags, (nm, tags) ∈ c.platforms →
        (info.checkConstraints tags = true →
          lk (Target.addFile c t info).Sources.Platform nm =
            lk t.Sources.Platform nm ++ [info.name] ∧
          lk (Target.addFile c t info).Imports.Platform nm =
            lk t.Imports.Platform nm ++ info.imports ∧
          lk (Target.addFile c t info).COpts.Platform nm =
            lk t.COpts.Platform nm ++
              (info.copts.filter (fun o => o.tags == "" || checkTags o.tags tags)).map
                (fun o => o.opts) ∧
          lk (Target.addFile c t info).CLinkOpts.Platform nm =
            lk t.CLinkOpts.Platform nm ++
              (info.clinkopts.filter (fun o => o.tags == "" || checkTags o.tags tags)).map
                (fun o => o.opts)) ∧
        (info.checkConstraints tags = false →
          lk (Target.addFile c t info).Sources.Platform nm = lk t.Sources.Platform nm ∧
          lk (Target.addFile c t info).Imports.Platform nm = lk t.Imports.Platform nm ∧
          lk (Target.addFile c t info).COpts.Platform nm = lk t.COpts.Platform nm ∧
          lk (Target.addFile c t info).CLinkOpts.Platform nm = lk t.CLinkOpts.Platform nm)) ∧
      (∀ k, k ∉ c.platforms.map Prod.fst →
        lk (Target.addFile c t info).Sources.Platform k = lk t.Sources.Platform k ∧
        lk (Target.addFile c t info).Imports.Platform k = lk t.Imports.Platform k ∧
        lk (Target.addFile c t info).COpts.Platform k = lk t.COpts.Platform k ∧
        lk (Target.addFile c t info).CLinkOpts.Platform k = lk t.CLinkOpts.Platform k)) := by
  obtain ⟨hs, hi, hco, hcl, hlks, hlki, hlkco, hlkcl⟩ := target_addFile_char c t info
  constructor
  · intro hgb
    refine ⟨?_, ?_, ?_, ?_, ?_, ?_, ?_, ?_⟩
    · rw [hs]
      unfold srcGen
      rw [if_pos hgb]
    · rw [hi]
      unfold impGen
      rw [if_pos hgb]
    · rw [hco]
      unfold coptGen
      rw [if_pos hgb]
    · rw [hcl]
      unfold clinkGen
      rw [if_pos hgb]
    · intro k
      rw [hlks k]
      unfold srcPlat
      rw [if_pos hgb, List.append_nil]
    · intro k
      rw [hlki k]
      unfold impPlat
      rw [if_pos hgb, List.append_nil]
    · intro nm tags hmem
      rw [hlkco nm, hlkcl nm, taggedPlat_entry_gen info.copts hgb hmem hnodup,
        taggedPlat_entry_gen info.clinkopts hgb hmem hnodup]
      exact ⟨rfl, rfl⟩
    · intro k hk
      rw [hlkco k, hlkcl k, taggedPlat_outside info.copts hk, taggedPlat_outside info.clinkopts hk]
      simp
  · intro hgb
    refine ⟨?_, ?_, ?_, ?_, ?_, ?_⟩
    · rw [hs]
      unfold srcGen
      rw [if_neg (by simp [hgb]), List.append_nil]
    · rw [hi]
      unfold impGen
      rw [if_neg (by simp [hgb]), List.append_nil]
    · rw [hco]
      unfold coptGen
      rw [if_neg (by simp [hgb]), List.append_nil]
    · rw [hcl]
      unfold clinkGen
      rw [if_neg (by simp [hgb]), List.append_nil]
    · intro nm tags hmem
      constructor
      · intro hcc
        rw [hlks nm, hlki nm, hlkco nm, hlkcl nm,
          srcPlat_entry_con hgb hmem hnodup, impPlat_entry_con hgb hmem hnodup,
          taggedPlat_entry_con info.copts hgb hmem hnodup,
          taggedPlat_entry_con info.clinkopts hgb hmem hnodup, if_pos hcc, if_pos hcc,
          if_pos hcc, if_pos hcc]
        exact ⟨rfl, rfl, rfl, rfl⟩
      · intro hcc
        have hcc2 : ¬ info.checkConstraints tags = true := by simp [hcc]
        rw [hlks nm, hlki nm, hlkco nm, hlkcl nm,
          srcPlat_entry_con hgb hmem hnodup, impPlat_entry_con hgb hmem hnodup,
          taggedPlat_entry_con info.copts hgb hmem hnodup,
          taggedPlat_entry_con info.clinkopts hgb hmem hnodup, if_neg hcc2, if_neg hcc2,
          if_neg hcc2, if_neg hcc2]
        simp
    · intro k hk
      rw [hlks k, hlki k, hlkco k, hlkcl k, srcPlat_outside hk, impPlat_outside hk,
        taggedPlat_outside info.copts hk, taggedPlat_outside info.clinkopts hk]
      simp

def infoC1w : FileInfo :=
  { baseInfo with name := fGo, path := fGo, tags := [tagBar]
                  copts := [{ tags := "", opts := optPlain }] }

theorem c1_witness :
    NodupKeys cC1.platforms ∧ genBranch cC1 infoC1w = false ∧
    ((pLinux, [tagBar]) ∈ cC1.platforms) ∧
    FileInfo.checkConstraints infoC1w [tagBar] = true ∧
    lk (Target.addFile cC1 emptyTarget infoC1w).Sources.Platform pLinux =
      lk emptyTarget.Sources.Platform pLinux ++ [infoC1w.name] ∧
    (Target.addFile cC1 emptyTarget infoC1w).Sources.Generic = emptyTarget.Sources.Generic ∧
    genBranch cC1 infoC1 = true ∧
    lk (Target.addFile cC1 emptyTarget infoC1).COpts.Platform pLinux =
      lk emptyTarget.COpts.Platform pLinux ++
        (infoC1.copts.filter (fun o => !(o.tags == "") && checkTags o.tags [tagBar])).map
          (fun o => o.opts) :=
  ⟨by decide, by decide, by decide, by decide,
   ((((c1_amended_routing cC1 emptyTarget infoC1w (by decide)).2 (by decide)).2.2.2.2.1
     pLinux [tagBar] (by decide)).1 (by decide)).1,
   ((c1_amended_routing cC1 emptyTarget infoC1w (by decide)).2 (by decide)).1,
   by decide,
   (((c1_amended_routing cC1 emptyTarget infoC1 (by decide)).1 (by decide)).2.2.2.2.2.2.1
     pLinux [tagBar] (by decide)).1⟩

/-! ## Routing predicates of Package.addFile -/

def dropF (info : FileInfo) : Bool :=
  info.category == .ignoredExt || info.category == .unsupportedExt

def errF (info : FileInfo) : Bool :=
  !dropF info && (info.isXTest || info.isTest) && info.isCgo

def routeXT (info : FileInfo) : Bool := !dropF info && info.isXTest && !info.isCgo

def routeT (info : FileInfo) : Bool :=
  !dropF info && !info.isXTest && info.isTest && !info.isCgo

def cgoCase (cgo : Bool) (info : FileInfo) : Bool :=
  info.isCgo || (cgo && isCFamily info.category)

def routeCgoL (cgo : Bool) (info : FileInfo) : Bool :=
  !dropF info && !info.isXTest && !info.isTest && cgoCase cgo info

def libCase (info : FileInfo) : Bool :=
  info.category == .goExt || info.category == .sExt || info.category == .hExt

def routeLib (cgo : Bool) (info : FileInfo) : Bool :=
  !dropF info && !info.isXTest && !info.isTest && !cgoCase cgo info && libCase info

def routeProto (cgo : Bool) (info : FileInfo) : Bool :=
  !dropF info && !info.isXTest && !info.isTest && !cgoCase cgo info && !libCase info &&
    (info.category == .protoExt)

def pbContrib (info : FileInfo) : Bool :=
  !dropF info && !errF info && hasSuf pbGoSuffix info.name.data

theorem spb_Name (info : FileInfo) (p : Package) : (setPbGo info p).Name = p.Name := by
  unfold setPbGo
  split <;> rfl

theorem spb_Dir (info : FileInfo) (p : Package) : (setPbGo info p).Dir = p.Dir := by
  unfold setPbGo
  split <;> rfl

theorem spb_Rel (info : FileInfo) (p : Package) : (setPbGo info p).Rel = p.Rel := by
  unfold setPbGo
  split <;> rfl

theorem spb_HasTestdata (info : FileInfo) (p : Package) :
    (setPbGo info p).HasTestdata = p.HasTestdata := by
  unfold setPbGo
  split <;> rfl

theorem spb_Binary (info : FileInfo) (p : Package) : (setPbGo info p).Binary = p.Binary := by
  unfold setPbGo
  split <;> rfl

theorem spb_Library (info : FileInfo) (p : Package) : (setPbGo info p).Library = p.Library := by
  unfold setPbGo
  split <;> rfl

theorem spb_CgoLibrary (info : FileInfo) (p : Package) :
    (setPbGo info p).CgoLibrary = p.CgoLibrary := by
  unfold setPbGo
  split <;> rfl

theorem spb_Test (info : FileInfo) (p : Package) : (setPbGo info p).Test = p.Test := by
  unfold setPbGo
  split <;> rfl

theorem spb_XTest (info : FileInfo) (p : Package) : (setPbGo info p).XTest = p.XTest := by
  unfold setPbGo
  split <;> rfl

theorem spb_Protos (info : FileInfo) (p : Package) : (setPbGo info p).Protos = p.Protos := by
  unfold setPbGo
  split <;> rfl

theorem spb_HasPbGo (info : FileInfo) (p : Package) :
    (setPbGo info p).HasPbGo = (p.HasPbGo || hasSuf pbGoSuffix info.name.data) := by
  unfold setPbGo
  by_cases h : hasSuf pbGoSuffix info.name.data = true
  · simp [h]
  · simp [h]

/-- Full characterization of one Package.addFile call: the routed target is
extended by Target.addFile, proto files append their name, HasPbGo gains the
suffix flag whenever the call runs to completion, and nothing else moves. -/
theorem package_addFile_char (c : Config) (p : Package) (info : FileInfo) (cgo : Bool) :
    (Package.addFile c p info cgo).1.Name = p.Name ∧
    (Package.addFile c p info cgo).1.Dir = p.Dir ∧
    (Package.addFile c p info cgo).1.Rel = p.Rel ∧
    (Package.addFile c p info cgo).1.HasTestdata = p.HasTestdata ∧
    (Package.addFile c p info cgo).1.Binary = p.Binary ∧
    (Package.addFile c p info cgo).1.Library =
      (if routeLib cgo info then p.Library.addFile c info else p.Library) ∧
    (Package.addFile c p info cgo).1.CgoLibrary =
      (if routeCgoL cgo info then p.CgoLibrary.addFile c info else p.CgoLibrary) ∧
    (Package.addFile c p info cgo).1.Test =
      (if routeT info then p.Test.addFile c info else p.Test) ∧
    (Package.addFile c p info cgo).1.XTest =
      (if routeXT info then p.XTest.addFile c info else p.XTest) ∧
    (Package.addFile c p info cgo).1.Protos =
      p.Protos ++ (if routeProto cgo info then [info.name] else []) ∧
    (Package.addFile c p info cgo).1.HasPbGo = (p.HasPbGo || pbContrib info) := by
  unfold Package.addFile
  by_cases h1 : (info.category == FileCategory.ignoredExt ||
      info.category == FileCategory.unsupportedExt) = true
  · simp [dropF, errF, routeXT, routeT, routeCgoL, routeLib, routeProto, pbContrib, h1]
  · simp only [if_neg h1]
    cases h2 : info.isXTest with
    | true =>
      cases h3 : info.isCgo with
      | true =>
        simp [dropF, errF, routeXT, routeT, routeCgoL, routeLib, routeProto, pbContrib,
          cgoCase, h1, h2, h3]
      | false =>
        simp [dropF, errF, routeXT, routeT, routeCgoL, routeLib, routeProto, pbContrib,
          cgoCase, h1, h2, h3, spb_Name, spb_Dir, spb_Rel, spb_HasTestdata, spb_Binary,
          spb_Library, spb_CgoLibrary, spb_Test, spb_XTest, spb_Protos, spb_HasPbGo]
    | false =>
      cases h4 : info.isTest with
      | true =>
        cases h3 : info.isCgo with
        | true =>
          simp [dropF, errF, routeXT, routeT, routeCgoL, routeLib, routeProto, pbContrib,
            cgoCase, h1, h2, h3, h4]
        | false =>
          simp [dropF, errF, routeXT, routeT, routeCgoL, routeLib, routeProto, pbContrib,
            cgoCase, h1, h2, h3, h4, spb_Name, spb_Dir, spb_Rel, spb_HasTestdata, spb_Binary,
            spb_Library, spb_CgoLibrary, spb_Test, spb_XTest, spb_Protos, spb_HasPbGo]
      | false =>
        by_cases h5 : (info.isCgo || (cgo && isCFamily info.category)) = true
        · simp [dropF, errF, routeXT, routeT, routeCgoL, routeLib, routeProto, pbContrib,
            cgoCase, h1, h2, h4, h5, spb_Name, spb_Dir, spb_Rel, spb_HasTestdata, spb_Binary,
            spb_Library, spb_CgoLibrary, spb_Test, spb_XTest, spb_Protos, spb_HasPbGo]
        · simp only [if_neg h5]
          by_cases h6 : (info.category == FileCategory.goExt ||
              info.category == FileCategory.sExt || info.category == FileCategory.hExt) = true
          · simp [dropF, errF, routeXT, routeT, routeCgoL, routeLib, routeProto, pbContrib,
              cgoCase, libCase, h1, h2, h4, h5, h6, spb_Name, spb_Dir, spb_Rel,
              spb_HasTestdata, spb_Binary, spb_Library, spb_CgoLibrary, spb_Test, spb_XTest,
              spb_Protos, spb_HasPbGo]
          · simp only [if_neg h6]
            by_cases h7 : (info.category == FileCategory.protoExt) = true
            · simp [dropF, errF, routeXT, routeT, routeCgoL, routeLib, routeProto, pbContrib,
                cgoCase, libCase, h1, h2, h4, h5, h6, h7, spb_Name, spb_Dir, spb_Rel,
                spb_HasTestdata, spb_Binary, spb_Library, spb_CgoLibrary, spb_Test, spb_XTest,
                spb_Protos, spb_HasPbGo]
            · simp [dropF, errF, routeXT, routeT, routeCgoL, routeLib, routeProto, pbContrib,
                cgoCase, libCase, h1, h2, h4, h5, h6, h7, spb_Name, spb_Dir, spb_Rel,
                spb_HasTestdata, spb_Binary, spb_Library, spb_CgoLibrary, spb_Test, spb_XTest,
                spb_Protos, spb_HasPbGo]

/-! ## Closed forms for whole-directory aggregation -/

def targetAddMany (c : Config) (fs : List FileInfo) (t : Target) : Target :=
  fs.foldl (Target.addFile c) t

theorem targetAddMany_char (c : Config) (fs : List FileInfo) (t : Target) :
    (targetAddMany c fs t).Sources.Generic = t.Sources.Generic ++ fs.flatMap (srcGen c) ∧
    (targetAddMany c fs t).Imports.Generic = t.Imports.Generic ++ fs.flatMap (impGen c) ∧
    (targetAddMany c fs t).COpts.Generic = t.COpts.Generic ++ fs.flatMap (coptGen c) ∧
    (targetAddMany c fs t).CLinkOpts.Generic = t.CLinkOpts.Generic ++ fs.flatMap (clinkGen c) ∧
    (∀ k, lk (targetAddMany c fs t).Sources.Platform k =
      lk t.Sources.Platform k ++ fs.flatMap (fun f => srcPlat c f k)) ∧
    (∀ k, lk (targetAddMany c fs t).Imports.Platform k =
      lk t.Imports.Platform k ++ fs.flatMap (fun f => impPlat c f k)) ∧
    (∀ k, lk (targetAddMany c fs t).COpts.Platform k =
      lk t.COpts.Platform k ++ fs.flatMap (fun f => taggedPlat f.copts c f k)) ∧
    (∀ k, lk (targetAddMany c fs t).CLinkOpts.Platform k =
      lk t.CLinkOpts.Platform k ++ fs.flatMap (fun f => taggedPlat f.clinkopts c f k)) := by
  refine ⟨?_, ?_, ?_, ?_, fun k => ?_, fun k => ?_, fun k => ?_, fun k => ?_⟩
  · exact fold_proj_append (fun t2 : Target => t2.Sources.Generic) _ (srcGen c)
      (fun s e => (target_addFile_char c s e).1) fs t
  · exact fold_proj_append (fun t2 : Target => t2.Imports.Generic) _ (impGen c)
      (fun s e => (target_addFile_char c s e).2.1) fs t
  · exact fold_proj_append (fun t2 : Target => t2.COpts.Generic) _ (coptGen c)
      (fun s e => (target_addFile_char c s e).2.2.1) fs t
  · exact fold_proj_append (fun t2 : Target => t2.CLinkOpts.Generic) _ (clinkGen c)
      (fun s e => (target_addFile_char c s e).2.2.2.1) fs t
  · exact fold_proj_lk (fun t2 : Target => t2.Sources.Platform) _ (fun f k2 => srcPlat c f k2)
      (fun s e k2 => (target_addFile_char c s e).2.2.2.2.1 k2) fs t k
  · exact fold_proj_lk (fun t2 : Target => t2.Imports.Platform) _ (fun f k2 => impPlat c f k2)
      (fun s e k2 => (target_addFile_char c s e).2.2.2.2.2.1 k2) fs t k
  · exact fold_proj_lk (fun t2 : Target => t2.COpts.Platform) _
      (fun f k2 => taggedPlat f.copts c f k2)
      (fun s e k2 => (target_addFile_char c s e).2.2.2.2.2.2.1 k2) fs t k
  · exact fold_proj_lk (fun t2 : Target => t2.CLinkOpts.Platform) _
      (fun f k2 => taggedPlat f.clinkopts c f k2)
      (fun s e k2 => (target_addFile_char c s e).2.2.2.2.2.2.2 k2) fs t k

theorem addFiles_char (c : Config) (cgo : Bool) (files : List FileInfo) (p : Package) :
    (addFiles c cgo p files).Name = p.Name ∧
    (addFiles c cgo p files).Dir = p.Dir ∧
    (addFiles c cgo p files).Rel = p.Rel ∧
    (addFiles c cgo p files).HasTestdata = p.HasTestdata ∧
    (addFiles c cgo p files).Binary = p.Binary ∧
    (addFiles c cgo p files).Library = targetAddMany c (files.filter (routeLib cgo)) p.Library ∧
    (addFiles c cgo p files).CgoLibrary =
      targetAddMany c (files.filter (routeCgoL cgo)) p.CgoLibrary ∧
    (addFiles c cgo p files).Test = targetAddMany c (files.filter routeT) p.Test ∧
    (addFiles c cgo p files).XTest = targetAddMany c (files.filter routeXT) p.XTest ∧
    (addFiles c cgo p files).Protos =
      p.Protos ++ files.flatMap (fun f => if routeProto cgo f then [f.name] else []) ∧
    (addFiles c cgo p files).HasPbGo = (p.HasPbGo || files.any pbContrib) := by
  refine ⟨?_, ?_, ?_, ?_, ?_, ?_, ?_, ?_, ?_, ?_, ?_⟩
  · exact fold_proj_const (fun p2 : Package => p2.Name) _
      (fun s e => (package_addFile_char c s e cgo).1) files p
  · exact fold_proj_const (fun p2 : Package => p2.Dir) _
      (fun s e => (package_addFile_char c s e cgo).2.1) files p
  · exact fold_proj_const (fun p2 : Package => p2.Rel) _
      (fun s e => (package_addFile_char c s e cgo).2.2.1) files p
  · exact fold_proj_const (fun p2 : Package => p2.HasTestdata) _
      (fun s e => (package_addFile_char c s e cgo).2.2.2.1) files p
  · exact fold_proj_const (fun p2 : Package => p2.Binary) _
      (fun s e => (package_addFile_char c s e cgo).2.2.2.2.1) files p
  · exact fold_proj_ite (fun p2 : Package => p2.Library) _ (fun t f => Target.addFile c t f)
      (routeLib cgo) (fun s e => (package_addFile_char c s e cgo).2.2.2.2.2.1) files p
  · exact fold_proj_ite (fun p2 : Package => p2.CgoLibrary) _ (fun t f => Target.addFile c t f)
      (routeCgoL cgo) (fun s e => (package_addFile_char c s e cgo).2.2.2.2.2.2.1) files p
  · exact fold_proj_ite (fun p2 : Package => p2.Test) _ (fun t f => Target.addFile c t f)
      routeT (fun s e => (package_addFile_char c s e cgo).2.2.2.2.2.2.2.1) files p
  · exact fold_proj_ite (fun p2 : Package => p2.XTest) _ (fun t f => Target.addFile c t f)
      routeXT (fun s e => (package_addFile_char c s e cgo).2.2.2.2.2.2.2.2.1) files p
  · exact fold_proj_append (fun p2 : Package => p2.Protos) _
      (fun f => if routeProto cgo f then [f.name] else [])
      (fun s e => (package_addFile_char c s e cgo).2.2.2.2.2.2.2.2.2.1) files p
  · exact fold_proj_or (fun p2 : Package => p2.HasPbGo) _ pbContrib
      (fun s e => (package_addFile_char c s e cgo).2.2.2.2.2.2.2.2.2.2) files p

/-! ## Nodup-key invariants of aggregation -/

def targetNodup (t : Target) : Prop :=
  NodupKeys t.Sources.Platform ∧ NodupKeys t.Imports.Platform ∧
  NodupKeys t.COpts.Platform ∧ NodupKeys t.CLinkOpts.Platform

theorem nodup_addGenericOpts (pls : List (String × List String)) (opts : List TaggedOpts)
    (ps : PlatformStrings) (h : NodupKeys ps.Platform) :
    NodupKeys (ps.addGenericOpts pls opts).Platform := by
  unfold PlatformStrings.addGenericOpts
  refine fold_preserve (fun s => NodupKeys s.Platform) _ (fun s o hs => ?_) opts ps h
  by_cases ho : (o.tags == "") = true
  · simpa [ho] using hs
  · simp only [if_neg ho]
    refine fold_preserve (fun s2 => NodupKeys s2.Platform) _ (fun s2 e hs2 => ?_) pls s hs
    by_cases hc : checkTags o.tags e.2 = true
    · simp only [if_pos hc]
      exact nodupKeys_updateApp e.1 [o.opts] hs2
    · simpa [hc] using hs2

theorem nodup_addTaggedOpts (nm : String) (opts : List TaggedOpts) (tags : List String)
    (ps : PlatformStrings) (h : NodupKeys ps.Platform) :
    NodupKeys (ps.addTaggedOpts nm opts tags).Platform := by
  unfold PlatformStrings.addTaggedOpts
  refine fold_preserve (fun s => NodupKeys s.Platform) _ (fun s o hs => ?_) opts ps h
  by_cases ho : (o.tags == "" || checkTags o.tags tags) = true
  · simp only [if_pos ho]
    exact nodupKeys_updateApp nm [o.opts] hs
  · simpa [ho] using hs

theorem target_addFile_nodup (c : Config) (info : FileInfo) :
    ∀ t : Target, targetNodup t → targetNodup (Target.addFile c t info) := by
  intro t h
  unfold Target.addFile
  by_cases hgb : (!info.hasConstraints || info.checkConstraints c.genericTags) = true
  · simp only [if_pos hgb]
    exact ⟨h.1, h.2.1, nodup_addGenericOpts _ _ t.COpts h.2.2.1,
      nodup_addGenericOpts _ _ t.CLinkOpts h.2.2.2⟩
  · simp only [if_neg hgb]
    refine fold_preserve targetNodup _ (fun s e hs => ?_) c.platforms t h
    by_cases hc : info.checkConstraints e.2 = true
    · simp only [if_pos hc]
      exact ⟨nodupKeys_updateApp e.1 [info.name] hs.1,
        nodupKeys_updateApp e.1 info.imports hs.2.1,
        nodup_addTaggedOpts e.1 info.copts e.2 s.COpts hs.2.2.1,
        nodup_addTaggedOpts e.1 info.clinkopts e.2 s.CLinkOpts hs.2.2.2⟩
    · simpa [hc] using hs

def packageNodup (p : Package) : Prop :=
  targetNodup p.Library ∧ targetNodup p.CgoLibrary ∧ targetNodup p.Binary ∧
  targetNodup p.Test ∧ targetNodup p.XTest

theorem package_addFile_nodup (c : Config) (info : FileInfo) (cgo : Bool) :
    ∀ p : Package, packageNodup p → packageNodup (Package.addFile c p info cgo).1 := by
  intro p h
  obtain ⟨-, -, -, -, hB, hL, hC, hT, hX, -, -⟩ := package_addFile_char c p info cgo
  refine ⟨?_, ?_, ?_, ?_, ?_⟩
  · rw [hL]
    by_cases hr : routeLib cgo info = true
    · simp only [if_pos hr]
      exact target_addFile_nodup c info _ h.1
    · simpa [hr] using h.1
  · rw [hC]
    by_cases hr : routeCgoL cgo info = true
    · simp only [if_pos hr]
      exact target_addFile_nodup c info _ h.2.1
    · simpa [hr] using h.2.1
  · rw [hB]
    exact h.2.2.1
  · rw [hT]
    by_cases hr : routeT info = true
    · simp only [if_pos hr]
      exact target_addFile_nodup c info _ h.2.2.2.1
    · simpa [hr] using h.2.2.2.1
  · rw [hX]
    by_cases hr : routeXT info = true
    · simp only [if_pos hr]
      exact target_addFile_nodup c info _ h.2.2.2.2
    · simpa [hr] using h.2.2.2.2

theorem addFiles_nodup (c : Config) (cgo : Bool) (files : List FileInfo) (p : Package)
    (h : packageNodup p) : packageNodup (addFiles c cgo p files) :=
  fold_preserve packageNodup _ (fun s e hs => package_addFile_nodup c e cgo s hs) files p h

theorem emptyPackage_nodup : packageNodup emptyPackage := by
  refine ⟨?_, ?_, ?_, ?_, ?_⟩ <;>
    exact ⟨List.nodup_nil, List.nodup_nil, List.nodup_nil, List.nodup_nil⟩

/-! ## Lookup through Clean -/

theorem lk_eq_nil_of_not_mem : ∀ (m : List (String × List String)) (k : String),
    k ∉ m.map Prod.fst → lk m k = []
  | [], _, _ => rfl
  | e :: m, k, h => by
    simp only [List.map_cons, List.mem_cons] at h
    have he : ¬ e.1 = k := fun hh => h (Or.inl hh.symm)
    simp only [lk, if_neg he]
    exact lk_eq_nil_of_not_mem m k (fun hm => h (Or.inr hm))

theorem cleanEntry_key {g : List String} {e x : String × List String}
    (h : cleanEntry g e = some x) : x.1 = e.1 := by
  simp only [cleanEntry] at h
  by_cases hempty : (e.2.filter (fun s => !(g.contains s))).isEmpty
  · rw [if_pos hempty] at h
    exact absurd h (by simp)
  · rw [if_neg hempty] at h
    rw [← Option.some.inj h]

theorem keys_filterMap_clean {g : List String} {m : List (String × List String)} {k : String}
    (hk : k ∉ m.map Prod.fst) : k ∉ (m.filterMap (cleanEntry g)).map Prod.fst := by
  intro hmem
  obtain ⟨x, hx, hkey⟩ := List.mem_map.mp hmem
  obtain ⟨a, ha, hae⟩ := List.mem_filterMap.mp hx
  have hmem2 : a.1 ∈ m.map Prod.fst := List.mem_map_of_mem Prod.fst ha
  exact hk (((cleanEntry_key hae).symm.trans hkey) ▸ hmem2)

theorem lk_clean_platform (g : List String) :
    ∀ m : List (String × List String), NodupKeys m → ∀ k,
      lk (m.filterMap (cleanEntry g)) k =
        (if ((lk m k).filter (fun s => !(g.contains s))).isEmpty then []
         else cleanStrings ((lk m k).filter (fun s => !(g.contains s)))) := by
  intro m
  induction m with
  | nil =>
    intro _ k
    simp [lk]
  | cons e m ih =>
    intro h k
    unfold NodupKeys at h
    simp only [List.map_cons, List.nodup_cons] at h
    rw [List.filterMap_cons]
    by_cases hek : e.1 = k
    · have hkm : k ∉ m.map Prod.fst := hek ▸ h.1
      have hlk : lk (e :: m) k = e.2 := by simp [lk, hek]
      rw [hlk]
      simp only [cleanEntry]
      by_cases hempty : (e.2.filter (fun s => !(g.contains s))).isEmpty = true
      · rw [if_pos hempty, if_pos hempty]
        exact lk_eq_nil_of_not_mem _ k (keys_filterMap_clean hkm)
      · rw [if_neg hempty, if_neg hempty]
        simp [lk, hek]
    · have hlk : lk (e :: m) k = lk m k := by simp [lk, hek]
      rw [hlk]
      simp only [cleanEntry]
      by_cases hempty : (e.2.filter (fun s => !(g.contains s))).isEmpty = true
      · rw [if_pos hempty]
        exact ih h.2 k
      · rw [if_neg hempty]
        rw [show lk ((e.1, cleanStrings (e.2.filter (fun s => !(g.contains s)))) ::
            m.filterMap (cleanEntry g)) k = lk (m.filterMap (cleanEntry g)) k from by
          simp [lk, hek]]
        exact ih h.2 k

theorem perm_isEmpty {α : Type} {l1 l2 : List α} (h : l1.Perm l2) :
    l1.isEmpty = l2.isEmpty := by
  cases l1 with
  | nil =>
    rw [h.nil_eq]
  | cons a t =>
    cases l2 with
    | nil => exact absurd h.symm.nil_eq (by simp)
    | cons b t2 => rfl

/-! ## Equivalence of aggregated packages up to Go map equality -/

/-- Equality of PlatformStrings as Go values: equal generic slices and
extensionally equal platform maps. -/
def psEquiv (a b : PlatformStrings) : Prop :=
  a.Generic = b.Generic ∧ ∀ k, lk a.Platform k = lk b.Platform k

def targetEquiv (a b : Target) : Prop :=
  psEquiv a.Sources b.Sources ∧ psEquiv a.Imports b.Imports ∧
  psEquiv a.COpts b.COpts ∧ psEquiv a.CLinkOpts b.CLinkOpts

/-- Equality of Packages as Go values, with the protocol-file list compared
only up to order. -/
def packageEquiv (a b : Package) : Prop :=
  a.Name = b.Name ∧ a.Dir = b.Dir ∧ a.Rel = b.Rel ∧
  targetEquiv a.Library b.Library ∧ targetEquiv a.CgoLibrary b.CgoLibrary ∧
  targetEquiv a.Binary b.Binary ∧ targetEquiv a.Test b.Test ∧
  targetEquiv a.XTest b.XTest ∧
  a.Protos.Perm b.Protos ∧ a.HasPbGo = b.HasPbGo ∧ a.HasTestdata = b.HasTestdata

theorem psEquiv_clean {a b : PlatformStrings}
    (hna : NodupKeys a.Platform) (hnb : NodupKeys b.Platform)
    (hgen : a.Generic.Perm b.Generic) (hlk : ∀ k, (lk a.Platform k).Perm (lk b.Platform k)) :
    psEquiv a.Clean b.Clean := by
  have hg : cleanStrings a.Generic = cleanStrings b.Generic := cleanStrings_perm_congr hgen
  refine ⟨hg, fun k => ?_⟩
  rw [show lk a.Clean.Platform k = _ from
      lk_clean_platform (cleanStrings a.Generic) a.Platform hna k,
    show lk b.Clean.Platform k = _ from
      lk_clean_platform (cleanStrings b.Generic) b.Platform hnb k, hg]
  have hfperm := (hlk k).filter (fun s => !((cleanStrings b.Generic).contains s))
  have hemp := perm_isEmpty hfperm
  by_cases he : ((lk a.Platform k).filter
      (fun s => !((cleanStrings b.Generic).contains s))).isEmpty = true
  · rw [if_pos he, if_pos (hemp ▸ he)]
  · rw [if_neg he, if_neg (hemp ▸ he), cleanStrings_perm_congr hfperm]

theorem targetAddMany_perm_equiv (c : Config) {fs1 fs2 : List FileInfo} (h : fs1.Perm fs2)
    (t0 : Target) (hn1 : targetNodup (targetAddMany c fs1 t0))
    (hn2 : targetNodup (targetAddMany c fs2 t0)) :
    targetEquiv (targetAddMany c fs1 t0).clean (targetAddMany c fs2 t0).clean := by
  obtain ⟨g1s, g1i, g1c, g1l, l1s, l1i, l1c, l1l⟩ := targetAddMany_char c fs1 t0
  obtain ⟨g2s, g2i, g2c, g2l, l2s, l2i, l2c, l2l⟩ := targetAddMany_char c fs2 t0
  refine ⟨?_, ?_, ?_, ?_⟩
  · exact psEquiv_clean hn1.1 hn2.1
      (by rw [g1s, g2s]; exact (h.flatMap_right (srcGen c)).append_left _)
      (fun k => by rw [l1s k, l2s k]; exact (h.flatMap_right _).append_left _)
  · exact psEquiv_clean hn1.2.1 hn2.2.1
      (by rw [g1i, g2i]; exact (h.flatMap_right (impGen c)).append_left _)
      (fun k => by rw [l1i k, l2i k]; exact (h.flatMap_right _).append_left _)
  · exact psEquiv_clean hn1.2.2.1 hn2.2.2.1
      (by rw [g1c, g2c]; exact (h.flatMap_right (coptGen c)).append_left _)
      (fun k => by rw [l1c k, l2c k]; exact (h.flatMap_right _).append_left _)
  · exact psEquiv_clean hn1.2.2.2 hn2.2.2.2
      (by rw [g1l, g2l]; exact (h.flatMap_right (clinkGen c)).append_left _)
      (fun k => by rw [l1l k, l2l k]; exact (h.flatMap_right _).append_left _)

theorem perm_any {α : Type} {l1 l2 : List α} (h : l1.Perm l2) (f : α → Bool) :
    l1.any f = l2.any f := by
  by_cases hb : l1.any f = true
  · rw [hb]
    symm
    rw [List.any_eq_true] at hb ⊢
    obtain ⟨x, hx, hfx⟩ := hb
    exact ⟨x, h.mem_iff.mp hx, hfx⟩
  · have hb1 : l1.any f = false := by simpa using hb
    rw [hb1]
    symm
    rw [List.any_eq_false]
    intro x hx
    rw [List.any_eq_false] at hb1
    exact hb1 x (h.mem_iff.mpr hx)

/-! ## C6 -/

def aProto : String := "a.proto"
def bProto : String := "b.proto"

def protoA : FileInfo := { baseInfo with name := aProto, path := aProto, category := .protoExt }
def protoB : FileInfo := { baseInfo with name := bProto, path := bProto, category := .protoExt }

/-- C6 counterexample: two protocol-definition files added in the two orders
give normalized packages whose Protos lists differ — the Protos list is
appended in processing order and Clean does not touch it, so the final
normalized Package is not literally identical across insertion orders. -/
theorem c6_counterexample :
    (addFiles cfgEmpty false emptyPackage [protoA, protoB]).clean.Protos = [aProto, bProto] ∧
    (addFiles cfgEmpty false emptyPackage [protoB, protoA]).clean.Protos = [bProto, aProto] ∧
    (addFiles cfgEmpty false emptyPackage [protoA, protoB]).clean.Protos ≠
      (addFiles cfgEmpty false emptyPackage [protoB, protoA]).clean.Protos := by decide

/-- C6 (amended): folding any permutation of a file list into the empty
package and then normalizing every PlatformStrings yields the same package
up to Go value equality — equal target slices and extensionally equal
platform maps for all five targets, equal flags, and the same
protocol-file multiset (the Protos slice may differ in order). -/
theorem c6_amended_order_independence (c : Config) (cgo : Bool)
    (files1 files2 : List FileInfo) (hperm : files1.Perm files2) :
    packageEquiv (addFiles c cgo emptyPackage files1).clean
      (addFiles c cgo emptyPackage files2).clean := by
  obtain ⟨n1, d1, r1, ht1, b1, lb1, cg1, t1, x1, pr1, pb1⟩ :=
    addFiles_char c cgo files1 emptyPackage
  obtain ⟨n2, d2, r2, ht2, b2, lb2, cg2, t2, x2, pr2, pb2⟩ :=
    addFiles_char c cgo files2 emptyPackage
  have hn1 := addFiles_nodup c cgo files1 emptyPackage emptyPackage_nodup
  have hn2 := addFiles_nodup c cgo files2 emptyPackage emptyPackage_nodup
  refine ⟨?_, ?_, ?_, ?_, ?_, ?_, ?_, ?_, ?_, ?_, ?_⟩
  · show (addFiles c cgo emptyPackage files1).Name = (addFiles c cgo emptyPackage files2).Name
    rw [n1, n2]
  · show (addFiles c cgo emptyPackage files1).Dir = (addFiles c cgo emptyPackage files2).Dir
    rw [d1, d2]
  · show (addFiles c cgo emptyPackage files1).Rel = (addFiles c cgo emptyPackage files2).Rel
    rw [r1, r2]
  · show targetEquiv (addFiles c cgo emptyPackage files1).Library.clean
      (addFiles c cgo emptyPackage files2).Library.clean
    rw [lb1, lb2]
    exact targetAddMany_perm_equiv c (hperm.filter (routeLib cgo)) emptyPackage.Library
      (lb1 ▸ hn1.1) (lb2 ▸ hn2.1)
  · show targetEquiv (addFiles c cgo emptyPackage files1).CgoLibrary.clean
      (addFiles c cgo emptyPackage files2).CgoLibrary.clean
    rw [cg1, cg2]
    exact targetAddMany_perm_equiv c (hperm.filter (routeCgoL cgo)) emptyPackage.CgoLibrary
      (cg1 ▸ hn1.2.1) (cg2 ▸ hn2.2.1)
  · show targetEquiv (addFiles c cgo emptyPackage files1).Binary.clean
      (addFiles c cgo emptyPackage files2).Binary.clean
    rw [b1, b2]
    exact ⟨⟨rfl, fun _ => rfl⟩, ⟨rfl, fun _ => rfl⟩, ⟨rfl, fun _ => rfl⟩, ⟨rfl, fun _ => rfl⟩⟩
  · show targetEquiv (addFiles c cgo emptyPackage files1).Test.clean
      (addFiles c cgo emptyPackage files2).Test.clean
    rw [t1, t2]
    exact targetAddMany_perm_equiv c (hperm.filter routeT) emptyPackage.Test
      (t1 ▸ hn1.2.2.2.1) (t2 ▸ hn2.2.2.2.1)
  · show targetEquiv (addFiles c cgo emptyPackage files1).XTest.clean
      (addFiles c cgo emptyPackage files2).XTest.clean
    rw [x1, x2]
    exact targetAddMany_perm_equiv c (hperm.filter routeXT) emptyPackage.XTest
      (x1 ▸ hn1.2.2.2.2) (x2 ▸ hn2.2.2.2.2)
  · show (addFiles c cgo emptyPackage files1).Protos.Perm
      (addFiles c cgo emptyPackage files2).Protos
    rw [pr1, pr2]
    exact (hperm.flatMap_right _).append_left _
  · show (addFiles c cgo emptyPackage files1).HasPbGo =
      (addFiles c cgo emptyPackage files2).HasPbGo
    rw [pb1, pb2, perm_any hperm pbContrib]
  · show (addFiles c cgo emptyPackage files1).HasTestdata =
      (addFiles c cgo emptyPackage files2).HasTestdata
    rw [ht1, ht2]

theorem c6_witness :
    ([protoA, protoB] : List FileInfo).Perm [protoB, protoA] ∧
    packageEquiv (addFiles cfgEmpty false emptyPackage [protoA, protoB]).clean
      (addFiles cfgEmpty false emptyPackage [protoB, protoA]).clean :=
  ⟨by decide, c6_amended_order_independence cfgEmpty false _ _ (by decide)⟩
